import Mathlib

/-
Shallow embedding of the trading bot's optimizer core over exact rationals,
together with theorems checking the specification's claims about it.

Embedded sources:
* bot/exchange/upbit.py   : get_tick_size, round_price_to_tick
* bot/strategies/signal.py: ensemble_signal and the nine sub-strategies
* bot/optimizer.py        : the backtest simulator, the coarse/fine weight
                            grid generators and the two-stage orchestrator

Conventions of the embedding:
* Python floats are modelled as rationals; arithmetic is exact.
* Python `int(x)` (truncation toward zero) is `pyInt`; Python `round(x)`
  and `round(x, n)` (banker's rounding, half to even) are `pyRound` and
  `round10`; `np.floor` is `Int.floor`.
* `np.std` (a square root, irrational in general) appears in the source
  only (a) compared against rational bounds, which is embedded by the
  equivalent comparison of squares, and (b) as the denominator of the
  Sharpe ratio, see `sharpeOf`.
* Python dicts keyed by strategy names are association lists
  `List (String × ℚ)` in key-insertion order.
-/

/-- Python `int(x)`: truncation toward zero. -/
def pyInt (q : ℚ) : ℤ := if 0 ≤ q then ⌊q⌋ else ⌈q⌉

/-- Python `round(x)`: round half to even (banker's rounding). -/
def pyRound (q : ℚ) : ℤ :=
  let f := ⌊q⌋
  let frac := q - f
  if frac < 1/2 then f
  else if 1/2 < frac then f + 1
  else if f % 2 = 0 then f else f + 1

/-- Python `round(x, 10)` from `_generate_neighbor_weights`. -/
def round10 (q : ℚ) : ℚ := (pyRound (q * 10^10) : ℚ) / 10^10

/-- `np.floor(x * 1e8) / 1e8` from the buy branch of `_backtest`:
quantity truncated down to 8 decimal places. -/
def floor8 (q : ℚ) : ℚ := ((⌊q * 100000000⌋ : ℚ)) / 100000000

/-- `_get_tick_size` from upbit.py: exchange tick size as a step function
of the price magnitude. -/
def get_tick_size (p : ℚ) : ℚ :=
  if 2000000 ≤ p then 1000
  else if 1000000 ≤ p then 500
  else if 500000 ≤ p then 100
  else if 100000 ≤ p then 50
  else if 10000 ≤ p then 10
  else if 1000 ≤ p then 5
  else if 100 ≤ p then 1
  else if 10 ≤ p then 1/10
  else 1/100

/-- `round_price_to_tick` from upbit.py.  The `up` mode adds
`tick - 1e-12` before truncating (the `1e-12` guards against float noise
in the source); any mode other than `up`/`nearest` rounds down. -/
def round_price_to_tick (price : ℚ) (mode : String) : ℚ :=
  let p := price
  let tick := get_tick_size p
  if mode = "up" then (pyInt ((p + tick - 1/10^12) / tick) : ℚ) * tick
  else if mode = "nearest" then (pyRound (p / tick) : ℚ) * tick
  else (pyInt (p / tick) : ℚ) * tick

-- ----------------------------------------------------------------
-- Signal engine (bot/strategies/signal.py)
-- ----------------------------------------------------------------

/-- `np.mean` (0 on the empty list; every use in the source is guarded). -/
def listMean (xs : List ℚ) : ℚ := xs.sum / xs.length

/-- Square of `np.std` (population variance, ddof = 0).  The source only
ever compares `np.std` against rational bounds; those comparisons are
embedded by the equivalent comparisons of squares. -/
def popVar (xs : List ℚ) : ℚ :=
  (xs.map (fun x => (x - listMean xs)^2)).sum / xs.length

/-- `np.max` on a nonempty list (0 on empty; every use is guarded). -/
def listMax : List ℚ → ℚ
  | [] => 0
  | x :: xs => xs.foldl max x

/-- `np.min` on a nonempty list (0 on empty; every use is guarded). -/
def listMin : List ℚ → ℚ
  | [] => 0
  | x :: xs => xs.foldl min x

/-- Python `prices[-k]` (guards in the callers keep `k ≤ len`). -/
def pyNeg (xs : List ℚ) (k : ℕ) : ℚ := xs.getD (xs.length - k) 0

/-- `_sig_trend`: up/down versus the previous price. -/
def sig_trend (prices : List ℚ) : ℚ :=
  if prices.length < 2 then 0
  else if pyNeg prices 2 < pyNeg prices 1 then 1 else -1

/-- `_sig_momentum`: price difference over `period` steps. -/
def sig_momentum (prices : List ℚ) (period : ℕ) : ℚ :=
  if prices.length ≤ period then 0
  else if 0 < pyNeg prices 1 - pyNeg prices (period + 1) then 1 else -1

/-- `_sig_swing`: short/long moving-average crossover. -/
def sig_swing (prices : List ℚ) (short_period long_period : ℕ) : ℚ :=
  if prices.length < max short_period long_period then 0
  else if listMean (prices.drop (prices.length - long_period))
      < listMean (prices.drop (prices.length - short_period)) then 1
  else -1

/-- `_sig_scalping`: volatility breakout.  `last_change > 0.5·std` is
embedded as `0 < last_change ∧ var/4 < last_change²` (and symmetrically
for the downside), which is equivalent over the reals. -/
def sig_scalping (prices : List ℚ) (lookback : ℕ) : ℚ :=
  if prices.length < lookback + 1 then 0
  else
    let recent := (prices.drop (prices.length - (lookback + 1))).take lookback
    let var := popVar recent
    if var = 0 then 0
    else
      let last_change := pyNeg prices 1 - pyNeg prices 2
      if 0 < last_change ∧ (1/4) * var < last_change^2 then 1
      else if last_change < 0 ∧ (1/4) * var < last_change^2 then -1
      else 0

/-- `_sig_day`: regime switch on the volatility ratio `std/mean`.
`ratio < 0.02` is embedded as `var < 0.02²·mean²` when `mean > 0` and as
true when `mean < 0` (the ratio is then nonpositive); `ratio > 0.05`
symmetrically.  Equivalent over the reals since `mean ≠ 0` is guarded. -/
def sig_day (prices : List ℚ) (lookback : ℕ) : ℚ :=
  if prices.length < lookback then 0
  else
    let recent := prices.drop (prices.length - lookback)
    let var := popVar recent
    let mean_price := listMean recent
    if mean_price = 0 then 0
    else if (if 0 < mean_price then var < (1/50)^2 * mean_price^2 else True) then
      (if pyNeg prices 2 < pyNeg prices 1 then 1 else -1)
    else if (if 0 < mean_price then (1/20)^2 * mean_price^2 < var else False) then
      (if mean_price < pyNeg prices 1 then -1 else 1)
    else 0

/-- `_sig_price_action`: new-high / new-low breakout. -/
def sig_price_action (prices : List ℚ) : ℚ :=
  if prices.length < 3 then 0
  else
    let last := pyNeg prices 1
    let prev_max := listMax (prices.take (prices.length - 1))
    let prev_min := listMin (prices.take (prices.length - 1))
    if prev_max < last then 1
    else if last < prev_min then -1
    else 0

/-- `_sig_rsi`: relative-strength index thresholds. -/
def sig_rsi (prices : List ℚ) (period : ℕ) : ℚ :=
  if prices.length ≤ period then 0
  else
    let diffs := List.zipWith (fun a b => b - a) prices prices.tail
    let gains := diffs.map (fun c => if 0 < c then c else 0)
    let losses := diffs.map (fun c => if 0 < c then 0 else |c|)
    if gains.length < period then 0
    else
      let avg_gain := listMean (gains.drop (gains.length - period))
      let avg_loss := listMean (losses.drop (losses.length - period))
      let rsi : ℚ :=
        if avg_loss = 0 then 100 else 100 - 100 / (1 + avg_gain / avg_loss)
      if rsi < 30 then 1
      else if 70 < rsi then -1
      else 0

/-- `_sig_bollinger`: band-boundary touch.  `last ≤ middle - n·std` is
embedded as `0 ≤ middle - last ∧ n²·var ≤ (middle - last)²` (equivalent
over the reals), and symmetrically for the upper band. -/
def sig_bollinger (prices : List ℚ) (period : ℕ) (num_std : ℚ) : ℚ :=
  if prices.length < period then 0
  else
    let recent := prices.drop (prices.length - period)
    let middle := listMean recent
    let var := popVar recent
    let last_price := pyNeg prices 1
    if 0 ≤ middle - last_price ∧ num_std^2 * var ≤ (middle - last_price)^2 then 1
    else if 0 ≤ last_price - middle ∧ num_std^2 * var ≤ (last_price - middle)^2 then -1
    else 0

/-- The inner `_ema` helper of `_sig_macd`. -/
def ema (data : List ℚ) (period : ℕ) : ℚ :=
  if data.length < period then listMean data
  else
    (data.drop period).foldl
      (fun acc price => (price - acc) * (2 / ((period : ℚ) + 1)) + acc)
      (listMean (data.take period))

/-- `_sig_macd`: EMA convergence/divergence versus its mean-approximated
signal line. -/
def sig_macd (prices : List ℚ) (fast slow signal : ℕ) : ℚ :=
  if prices.length < slow + signal then 0
  else
    let macd_line := ema prices fast - ema prices slow
    if prices.length < slow + signal + 10 then 0
    else
      let macd_history :=
        ((List.range prices.length).drop (prices.length - (slow + signal))).filterMap
          (fun i => if i < slow then none
            else some (ema (prices.take (i+1)) fast - ema (prices.take (i+1)) slow))
      if macd_history.length < signal then 0
      else
        let signal_line := listMean (macd_history.drop (macd_history.length - signal))
        if signal_line < macd_line then 1
        else if macd_line < signal_line then -1
        else 0

/-- The `signals` dict built by `ensemble_signal`, in source order and
with the source's default parameters. -/
def signalsTable (prices : List ℚ) : List (String × ℚ) :=
  [("trend", sig_trend prices),
   ("momentum", sig_momentum prices 10),
   ("swing", sig_swing prices 5 20),
   ("scalping", sig_scalping prices 10),
   ("day", sig_day prices 20),
   ("price_action", sig_price_action prices),
   ("rsi", sig_rsi prices 14),
   ("bollinger", sig_bollinger prices 20 2),
   ("macd", sig_macd prices 12 26 9)]

/-- The vote looked up for one key: 0 for keys absent from the table
(`signals.get(k, 0)` in the source). -/
def strategyVote (prices : List ℚ) (k : String) : ℚ :=
  (((signalsTable prices).lookup k)).getD 0

/-- `ensemble_signal`: weighted sum over the keys of `weights` only. -/
def ensemble_signal (prices : List ℚ) (weights : List (String × ℚ)) : ℚ :=
  (weights.map (fun kw => kw.2 * strategyVote prices kw.1)).sum

/-- The vote table that the nine strategies produce on a long constant
price series (ties fall to the `else` branches of the source): see
`signalsTable_const`. -/
def constVote (k : String) : ℚ :=
  (([("trend", (-1:ℚ)), ("momentum", -1), ("swing", -1), ("scalping", 0),
     ("day", -1), ("price_action", 0), ("rsi", -1), ("bollinger", 1),
     ("macd", 0)].lookup k)).getD 0

/-- The ensemble score on a long constant price series, as a function of
the weights: `w_bollinger - (w_trend + w_momentum + w_swing + w_day + w_rsi)`
in summed form. -/
def scoreConst (weights : List (String × ℚ)) : ℚ :=
  (weights.map (fun kw => kw.2 * constVote kw.1)).sum


-- ----------------------------------------------------------------
-- Backtest simulator (optimizer.py, _backtest)
-- ----------------------------------------------------------------

/-- One candle of the series: `_backtest` reads only `open` and `close`
(`open` is a Lean keyword, hence `open_`). -/
structure Candle where
  open_ : ℚ
  close : ℚ
deriving Repr, DecidableEq

/-- The metrics dict returned by `_backtest`. -/
structure Metrics where
  final_equity : ℚ
  total_return : ℚ
  max_drawdown : ℚ
  sharpe : ℚ
  win_rate : ℚ
  num_trades : ℕ
deriving Repr, DecidableEq

/-- The parameters of one `_backtest` run (`window` already clamped;
the early-stop settings are read from ambient `settings` in the source
and threaded explicitly here). -/
structure BTParams where
  weights : List (String × ℚ)
  threshold : ℚ
  initial_cash : ℚ
  fee_rate : ℚ
  fee_buffer : ℚ
  aggressiveness : ℚ
  window : ℕ
  early_stop_threshold : ℚ
  early_stop_candles : ℕ
deriving Repr, DecidableEq

/-- The mutable loop state of `_backtest`. -/
structure BTState where
  cash_krw : ℚ
  coin_qty : ℚ
  equity_curve : List ℚ
  returns : List ℚ
  last_equity : ℚ
  win_trades : ℕ
  total_trades : ℕ
deriving Repr, DecidableEq

/-- `min_order_krw = 5000.0`. -/
def min_order_krw : ℚ := 5000

/-- Out-of-range index default (never reached: the loop keeps
`i + 1 < len(candles)`). -/
def dCandle : Candle := ⟨0, 0⟩

/-- The body of the `_max_drawdown` loop: update the running peak
(started at `-inf`, modelled by `Option.none`) and the largest
peak-to-trough drawdown so far. -/
def mddStep (acc : Option ℚ × ℚ) (v : ℚ) : Option ℚ × ℚ :=
  let peak := match acc.1 with
    | none => v
    | some p => if p < v then v else p
  let mdd := if 0 < peak then
      (let dd := (peak - v) / peak
       if acc.2 < dd then dd else acc.2)
    else acc.2
  (some peak, mdd)

/-- `_max_drawdown`. -/
def max_drawdown (curve : List ℚ) : ℚ := (curve.foldl mddStep (none, 0)).2

/-- Square of `np.std(returns, ddof=1)` (0 when fewer than 2 samples,
matching the guarded use in `_sharpe_ratio`). -/
def sampleVar (xs : List ℚ) : ℚ :=
  (xs.map (fun x => (x - listMean xs)^2)).sum / (xs.length - 1)

/-- Rational stand-in for the float square root inside `_sharpe_ratio`:
integer square root after scaling by 10^24, then divided by 10^12.  The
true square root is irrational in general, so this one returned value is
approximated; no claim in this development depends on it — the zero
branches (no returns, zero variance) and the early-stop sentinel -999
are exact. -/
def ratSqrt (q : ℚ) : ℚ := ((Nat.sqrt ((q.num.toNat * 10^24) / q.den)) : ℚ) / 10^12

/-- `_sharpe_ratio`: 0 on an empty return series or zero variance, else
the annualized mean/std ratio (minute periods, 365·24·60 per year). -/
def sharpeOf (returns : List ℚ) : ℚ :=
  if returns = [] then 0
  else
    let mean := listMean returns
    let std2 := if 1 < returns.length then sampleVar returns else 0
    if std2 = 0 then 0
    else ratSqrt (365 * 24 * 60) * mean / ratSqrt std2

/-- The trailing `window`-close slice `candles[i+1-window : i+1]` used
for the signal at step `i`. -/
def recentCloses (candles : List Candle) (window i : ℕ) : List ℚ :=
  ((candles.drop (i + 1 - window)).take window).map Candle.close

/-- The execution price at step `i`: the next bar's open,
`candles[i+1]["open"]`. -/
def execPrice (candles : List Candle) (i : ℕ) : ℚ :=
  (candles.getD (i + 1) dCandle).open_

/-- The ensemble score computed at step `i`. -/
def scoreAt (weights : List (String × ℚ)) (window : ℕ)
    (candles : List Candle) (i : ℕ) : ℚ :=
  ensemble_signal (recentCloses candles window i) weights

/-- One iteration of the `_backtest` loop at index `i`.
`Except.error m` models the early-stopping `return` from inside the
loop with the sentinel metrics `m`. -/
def btStep (P : BTParams) (candles : List Candle) (st : BTState) (i : ℕ) :
    Except Metrics BTState :=
  let next_open := execPrice candles i
  let next_close := (candles.getD (i + 1) dCandle).close
  let equity := st.cash_krw + st.coin_qty * next_close
  let st1 : BTState :=
    { st with
      equity_curve := st.equity_curve ++ [equity],
      returns := if 0 < i ∧ 0 < st.last_equity
        then st.returns ++ [(equity - st.last_equity) / st.last_equity]
        else st.returns,
      last_equity := equity }
  if P.early_stop_candles ≤ i ∧ equity / P.initial_cash - 1 ≤ P.early_stop_threshold then
    Except.error
      { final_equity := equity, total_return := equity / P.initial_cash - 1,
        max_drawdown := 1, sharpe := -999, win_rate := 0,
        num_trades := st.total_trades }
  else if i + 1 < max 3 P.window then Except.ok st1
  else
    let score := scoreAt P.weights P.window candles i
    let exec_price := next_open
    if P.threshold ≤ score then
      if min_order_krw < st1.cash_krw then
        let target_price := round_price_to_tick (exec_price * (1 + P.aggressiveness)) "up"
        let effective_unit_cost := target_price * (1 + P.fee_rate + P.fee_buffer)
        let volume := if 0 < effective_unit_cost
          then floor8 (st1.cash_krw / effective_unit_cost) else 0
        if 0 < volume ∧ min_order_krw < target_price * volume then
          let spend := target_price * volume
          let fee := spend * P.fee_rate
          Except.ok { st1 with
            cash_krw := st1.cash_krw - (spend + fee),
            coin_qty := st1.coin_qty + volume,
            total_trades := st1.total_trades + 1 }
        else Except.ok st1
      else Except.ok st1
    else if score ≤ -P.threshold then
      if 0 < st1.coin_qty then
        let target_price := round_price_to_tick (exec_price * (1 - P.aggressiveness)) "down"
        let proceed := target_price * st1.coin_qty
        if min_order_krw < proceed then
          let fee := proceed * P.fee_rate
          let new_cash := st1.cash_krw + (proceed - fee)
          Except.ok { st1 with
            cash_krw := new_cash,
            coin_qty := 0,
            win_trades := if equity < new_cash then st1.win_trades + 1 else st1.win_trades,
            total_trades := st1.total_trades + 1 }
        else Except.ok st1
      else Except.ok st1
    else Except.ok st1

/-- The first `n` iterations of the `_backtest` loop, short-circuiting on
the early-stop sentinel. -/
def btLoop (P : BTParams) (candles : List Candle) (n : ℕ) (st : BTState) :
    Except Metrics BTState :=
  (List.range n).foldlM (btStep P candles) st

/-- The parameter record `_backtest` works with: the window argument
clamped by `max(3, min(window, len(candles)))`. -/
def btParamsOf (candles : List Candle) (weights : List (String × ℚ))
    (threshold initial_cash fee_rate fee_buffer aggressiveness : ℚ)
    (window : ℕ) (early_stop_threshold : ℚ) (early_stop_candles : ℕ) : BTParams :=
  ⟨weights, threshold, initial_cash, fee_rate, fee_buffer, aggressiveness,
    max 3 (min window candles.length), early_stop_threshold, early_stop_candles⟩

instance {ε α : Type} [DecidableEq ε] [DecidableEq α] : DecidableEq (Except ε α)
  | Except.error a, Except.error b =>
      if h : a = b then isTrue (congrArg Except.error h)
      else isFalse (fun hc => h (Except.error.inj hc))
  | Except.ok a, Except.ok b =>
      if h : a = b then isTrue (congrArg Except.ok h)
      else isFalse (fun hc => h (Except.ok.inj hc))
  | Except.error _, Except.ok _ => isFalse (fun hc => Except.noConfusion hc)
  | Except.ok _, Except.error _ => isFalse (fun hc => Except.noConfusion hc)

/-- The initial loop state of `_backtest`. -/
def btInit (initial_cash : ℚ) : BTState :=
  ⟨initial_cash, 0, [], [], initial_cash, 0, 0⟩

/-- `_backtest`: run the loop over steps `0 .. len(candles) - 2` and
assemble the metrics. -/
def backtest (candles : List Candle) (weights : List (String × ℚ))
    (threshold initial_cash fee_rate fee_buffer aggressiveness : ℚ)
    (window : ℕ) (early_stop_threshold : ℚ) (early_stop_candles : ℕ) : Metrics :=
  let P : BTParams := btParamsOf candles weights threshold initial_cash fee_rate
    fee_buffer aggressiveness window early_stop_threshold early_stop_candles
  let init : BTState := btInit initial_cash
  match btLoop P candles (candles.length - 1) init with
  | Except.error m => m
  | Except.ok st =>
    let final_equity := st.cash_krw + st.coin_qty * (candles.getLastD dCandle).close
    { final_equity := final_equity,
      total_return := final_equity / initial_cash - 1,
      max_drawdown := max_drawdown st.equity_curve,
      sharpe := sharpeOf st.returns,
      win_rate := if 0 < st.total_trades
        then (st.win_trades : ℚ) / (st.total_trades : ℚ) else 0,
      num_trades := st.total_trades }

/-- `STRATEGY_KEYS` from optimizer.py. -/
def STRATEGY_KEYS : List String :=
  ["trend", "momentum", "swing", "scalping", "day", "price_action", "rsi",
   "bollinger", "macd"]

/-- `_generate_combinations` inside `_generate_weight_grid`: all ways to
split `r` units over `n` strategies.  The source only calls it with
`num_remaining = len(STRATEGY_KEYS) = 9`; a call with 0 strategies would
never reach the Python base case, so that unreachable argument maps
to `[]`. -/
def generate_combinations : ℕ → ℕ → List (List ℕ)
  | _, 0 => []
  | r, 1 => [[r]]
  | r, n+2 =>
    (List.range (r+1)).flatMap (fun i =>
      (generate_combinations (r-i) (n+1)).map (fun sub => i :: sub))

/-- `_generate_weight_grid(step)`: validate the step (fall back to 0.1
outside (0,1]), set `units = int(round(1/step))`, enumerate the
compositions and zip them with the strategy keys as unit fractions. -/
def generate_weight_grid (step : ℚ) : List (List (String × ℚ)) :=
  let vstep := if step ≤ 0 ∨ 1 < step then 1/10 else step
  let units := (pyRound (1 / vstep)).toNat
  (generate_combinations units STRATEGY_KEYS.length).map (fun combo =>
    STRATEGY_KEYS.zip (combo.map (fun x : ℕ => (x : ℚ) / (units : ℚ))))

/-- Python dict assignment `d[k] = v` on an association list with unique
keys: replace the value at `k`, preserving order. -/
def updateVal (ws : List (String × ℚ)) (k : String) (v : ℚ) :
    List (String × ℚ) :=
  ws.map (fun kw => if kw.1 = k then (kw.1, v) else kw)

/-- `_generate_neighbor_weights(base_weights, step, top_k=3)`: sort the
entries by weight descending (Python `sorted` is stable), take the top 3
keys, try moving `step` of weight from one to another, keep a candidate
only if both changed weights stay in [0,1] and the total is within 1e-6
of 1, and round every weight to 10 decimals. -/
def generate_neighbor_weights (base : List (String × ℚ)) (step : ℚ) :
    List (List (String × ℚ)) :=
  let sorted_weights := base.mergeSort (fun a b => decide (b.2 ≤ a.2))
  let top_k_keys := (sorted_weights.take 3).map Prod.fst
  top_k_keys.flatMap (fun key_i =>
    [-step, step].flatMap (fun delta_i =>
      let new_val_i := (base.lookup key_i).getD 0 + delta_i
      if new_val_i < 0 ∨ 1 < new_val_i then []
      else
        top_k_keys.flatMap (fun key_j =>
          if key_i = key_j then []
          else
            let new_val_j := (base.lookup key_j).getD 0 - delta_i
            if new_val_j < 0 ∨ 1 < new_val_j then []
            else
              let new_weights := updateVal (updateVal base key_i new_val_i)
                key_j new_val_j
              let total := (new_weights.map Prod.snd).sum
              if |total - 1| < 1/1000000 then
                [new_weights.map (fun kw => (kw.1, round10 kw.2))]
              else [])))

/-- A parameter set `{"weights": w, "threshold": th}` evaluated by the
optimizer. -/
structure OptParams where
  weights : List (String × ℚ)
  threshold : ℚ
deriving Repr, DecidableEq

/-- The ranking key used by `run`: `(total_return, sharpe)`. -/
def rank_key (r : Metrics × OptParams) : ℚ × ℚ :=
  (r.1.total_return, r.1.sharpe)

/-- Python tuple comparison `<` on the two-component rank keys
(lexicographic). -/
def rank_lt (a b : ℚ × ℚ) : Prop :=
  a.1 < b.1 ∨ (a.1 = b.1 ∧ a.2 < b.2)

instance (a b : ℚ × ℚ) : Decidable (rank_lt a b) := by
  unfold rank_lt
  infer_instance

/-- Python `max(results, key=...)`: scan left to right, replacing the
current best only when a strictly greater key appears, so the FIRST
maximal element wins ties; `none` on an empty list (where Python would
raise). -/
def pyMax {α : Type} (key : α → ℚ × ℚ) : List α → Option α
  | [] => none
  | x :: xs => some (xs.foldl (fun best y =>
      if rank_lt (key best) (key y) then y else best) x)

/-- `_run_coarse_search`: evaluate every grid candidate at every
threshold; `executor.map` preserves submission order, so the result list
is the parameter list in order. -/
def run_coarse_search (candles : List Candle) (thresholds : List ℚ)
    (initial_cash fee_rate fee_buffer aggressiveness : ℚ) (window : ℕ)
    (coarse_step early_stop_threshold : ℚ) (early_stop_candles : ℕ) :
    List (Metrics × OptParams) :=
  let candidates := generate_weight_grid coarse_step
  let param_list := candidates.flatMap (fun w =>
    thresholds.map (fun th => (⟨w, th⟩ : OptParams)))
  param_list.map (fun p =>
    (backtest candles p.weights p.threshold initial_cash fee_rate fee_buffer
      aggressiveness window early_stop_threshold early_stop_candles, p))

/-- `_run_fine_search`: stable-sort the coarse results by rank key
descending (Python `sorted(..., reverse=True)`), keep
`max(1, min(50, int(len * top_percent)))` of them, generate neighbors of
their weights and de-duplicate via the canonical key-sorted item tuple
(Python uses a `set`, whose iteration order is unspecified; first
occurrence is kept here and nothing proved depends on that order), then
evaluate every survivor at every threshold. -/
def run_fine_search (candles : List Candle) (thresholds : List ℚ)
    (coarse_results : List (Metrics × OptParams))
    (initial_cash fee_rate fee_buffer aggressiveness : ℚ) (window : ℕ)
    (fine_step top_percent early_stop_threshold : ℚ)
    (early_stop_candles : ℕ) : List (Metrics × OptParams) :=
  let sorted_results := coarse_results.mergeSort (fun a b =>
    decide (¬ rank_lt (rank_key a) (rank_key b)))
  let top_n := max 1 (min 50
    (pyInt ((sorted_results.length : ℚ) * top_percent)).toNat)
  let top_results := sorted_results.take top_n
  let fine_candidates := (top_results.flatMap (fun r =>
    (generate_neighbor_weights r.2.weights fine_step).map (fun nb =>
      nb.mergeSort (fun a b => decide (a.1 ≤ b.1))))).eraseDups
  let param_list := fine_candidates.flatMap (fun w =>
    thresholds.map (fun th => (⟨w, th⟩ : OptParams)))
  param_list.map (fun p =>
    (backtest candles p.weights p.threshold initial_cash fee_rate fee_buffer
      aggressiveness window early_stop_threshold early_stop_candles, p))

/-- `run`: the optimization cycle.  `none` models returning without
calling `save_optimizer_result`; `some best` models persisting the
winner of `max` over coarse + fine results. -/
def runOpt (candles : List Candle) (thresholds : List ℚ)
    (initial_cash fee_rate fee_buffer aggressiveness : ℚ) (window : ℕ)
    (coarse_step fine_step top_percent early_stop_threshold : ℚ)
    (early_stop_candles : ℕ) : Option (Metrics × OptParams) :=
  if candles.length < 200 then none
  else
    let coarse := run_coarse_search candles thresholds initial_cash fee_rate
      fee_buffer aggressiveness window coarse_step early_stop_threshold
      early_stop_candles
    if coarse = [] then none
    else
      let fine := run_fine_search candles thresholds coarse initial_cash
        fee_rate fee_buffer aggressiveness window fine_step top_percent
        early_stop_threshold early_stop_candles
      pyMax rank_key (coarse ++ fine)

-- ----------------------------------------------------------------
-- Facts about the tick-size table
-- ----------------------------------------------------------------

/-- The nine tick sizes the table can return. -/
def tickValues : List ℚ := [1/100, 1/10, 1, 5, 10, 50, 100, 500, 1000]

lemma get_tick_size_mem (p : ℚ) : get_tick_size p ∈ tickValues := by
  unfold get_tick_size tickValues
  split_ifs <;> simp

lemma get_tick_size_pos (p : ℚ) : 0 < get_tick_size p := by
  unfold get_tick_size
  split_ifs <;> norm_num

lemma get_tick_size_ge (p : ℚ) : 1/100 ≤ get_tick_size p := by
  unfold get_tick_size
  split_ifs <;> norm_num

set_option maxHeartbeats 1000000 in
lemma get_tick_size_mono {a b : ℚ} (h : a ≤ b) :
    get_tick_size a ≤ get_tick_size b := by
  unfold get_tick_size
  split_ifs <;> linarith

/-- Any larger tick size is an integer multiple of any smaller one. -/
lemma tick_div_den_one :
    ∀ x ∈ tickValues, ∀ y ∈ tickValues, x ≤ y → (y / x).den = 1 := by
  with_unfolding_all decide

lemma pyInt_of_nonneg {q : ℚ} (h : 0 ≤ q) : pyInt q = ⌊q⌋ := if_pos h

lemma round_down_def (p : ℚ) :
    round_price_to_tick p "down"
      = (pyInt (p / get_tick_size p) : ℚ) * get_tick_size p := by
  unfold round_price_to_tick
  rw [if_neg (by decide), if_neg (by decide)]

lemma round_up_def (p : ℚ) :
    round_price_to_tick p "up"
      = (pyInt ((p + get_tick_size p - 1/10^12) / get_tick_size p) : ℚ)
          * get_tick_size p := by
  unfold round_price_to_tick
  rw [if_pos (by decide)]

/-- Rounding down never increases the price. -/
lemma round_down_le {p : ℚ} (hp : 0 ≤ p) : round_price_to_tick p "down" ≤ p := by
  have ht := get_tick_size_pos p
  rw [round_down_def, pyInt_of_nonneg (by positivity)]
  calc (⌊p / get_tick_size p⌋ : ℚ) * get_tick_size p
      ≤ (p / get_tick_size p) * get_tick_size p := by
        exact mul_le_mul_of_nonneg_right (Int.floor_le _) (le_of_lt ht)
    _ = p := div_mul_cancel₀ p (ne_of_gt ht)

/-- Rounding up can lose at most the `1e-12` float-noise guard. -/
lemma round_up_gt {p : ℚ} (hp : 0 < p) :
    p - 1/10^12 < round_price_to_tick p "up" := by
  have ht := get_tick_size_pos p
  have hte : (1/10^12 : ℚ) < get_tick_size p := by
    have := get_tick_size_ge p
    linarith [get_tick_size_ge p]
  have harg : (0:ℚ) ≤ (p + get_tick_size p - 1/10^12) / get_tick_size p := by
    apply div_nonneg _ (le_of_lt ht)
    linarith
  rw [round_up_def, pyInt_of_nonneg harg]
  have hfl : (p + get_tick_size p - 1/10^12) / get_tick_size p - 1
      < (⌊(p + get_tick_size p - 1/10^12) / get_tick_size p⌋ : ℚ) :=
    Int.sub_one_lt_floor _
  have := mul_lt_mul_of_pos_right hfl ht
  rw [sub_mul, div_mul_cancel₀ _ (ne_of_gt ht)] at this
  linarith

/-- A nonnegative exact multiple of its own tick size is a fixed point of
both rounding modes. -/
lemma round_fixed {q : ℚ} (h0 : 0 ≤ q)
    (hden : (q / get_tick_size q).den = 1) :
    round_price_to_tick q "up" = q ∧ round_price_to_tick q "down" = q := by
  have ht := get_tick_size_pos q
  have hte : (1/10^12 : ℚ) < get_tick_size q := by linarith [get_tick_size_ge q]
  set t := get_tick_size q with htdef
  set n : ℤ := (q / t).num with hndef
  have hq : (n : ℚ) = q / t := (Rat.den_eq_one_iff _).mp hden
  have hqt : q = n * t := by
    field_simp at hq
    linarith [hq]
  have hn0 : (0:ℚ) ≤ (n : ℚ) := by
    rw [hq]
    positivity
  constructor
  · rw [round_up_def]
    have harg : (q + t - 1/10^12) / t = (1 - (1/10^12)/t) + (n : ℚ) := by
      rw [hqt]
      field_simp
      ring
    have hlt1 : (1/10^12)/t < 1 := (div_lt_one ht).mpr hte
    have hpos : (0:ℚ) < (1/10^12)/t := div_pos (by norm_num) ht
    rw [← htdef, harg, pyInt_of_nonneg (by linarith)]
    rw [Int.floor_add_int]
    have hfl0 : ⌊(1 : ℚ) - (1/10^12)/t⌋ = 0 := by
      apply Int.floor_eq_zero_iff.mpr
      rw [Set.mem_Ico]
      constructor
      · linarith
      · linarith
    rw [hfl0]
    push_cast
    linarith [hqt]
  · rw [round_down_def, ← htdef, ← hq, pyInt_of_nonneg hn0, Int.floor_intCast]
    linarith [hqt]

lemma tickValues_pos : ∀ x ∈ tickValues, (0:ℚ) < x := by
  with_unfolding_all decide

/-- An integer multiple of a tick value, divided by a smaller tick value,
is an integer. -/
lemma den_one_mult {m : ℤ} {t t' : ℚ} (htm : t ∈ tickValues)
    (htm' : t' ∈ tickValues) (hle : t' ≤ t) :
    (((m:ℚ) * t) / t').den = 1 := by
  have ht' : 0 < t' := tickValues_pos t' htm'
  have hk : (t / t').den = 1 := tick_div_den_one t' htm' t htm hle
  have hkq : ((t/t').num : ℚ) = t/t' := (Rat.den_eq_one_iff _).mp hk
  have hrw : ((m:ℚ) * t) / t' = ((m * (t/t').num : ℤ) : ℚ) := by
    rw [Int.cast_mul]
    conv_lhs => rw [mul_div_assoc, ← hkq]
  rw [hrw, Rat.den_intCast]

/-- A rational that is (provably) an integer has denominator one. -/
lemma den_one_of_eq_int {q : ℚ} {n : ℤ} (h : q = (n:ℚ)) : q.den = 1 := by
  rw [h]
  exact Rat.den_intCast n

/-- Rounding down yields a nonnegative exact multiple of its own tick. -/
lemma down_mult {p : ℚ} (hp : 0 < p) :
    0 ≤ round_price_to_tick p "down" ∧
      (round_price_to_tick p "down"
        / get_tick_size (round_price_to_tick p "down")).den = 1 := by
  have ht := get_tick_size_pos p
  have hfl0 : (0:ℚ) ≤ (⌊p / get_tick_size p⌋ : ℚ) := by
    exact_mod_cast Int.floor_nonneg.mpr (by positivity)
  have hqdef : round_price_to_tick p "down"
      = (⌊p / get_tick_size p⌋ : ℚ) * get_tick_size p := by
    rw [round_down_def, pyInt_of_nonneg (by positivity)]
  have h0 : 0 ≤ round_price_to_tick p "down" := by
    rw [hqdef]
    exact mul_nonneg hfl0 ht.le
  refine ⟨h0, ?_⟩
  have hmono := get_tick_size_mono (round_down_le hp.le)
  rw [hqdef] at hmono ⊢
  exact den_one_mult (get_tick_size_mem p) (get_tick_size_mem _) hmono

/-- Core of the up-rounding analysis on one region of the tick table:
if `p` sits in a region with tick `t` and upper boundary `B2` (an exact
multiple of both `t` and its own tick), the rounded price is a nonnegative
exact multiple of its own tick. -/
lemma up_mult_aux (p t B2 : ℚ) (b : ℤ)
    (ht : get_tick_size p = t) (hp : 0 < p) (hpB : p < B2)
    (hB : (b:ℚ) * t = B2)
    (hB2den : (B2 / get_tick_size B2).den = 1)
    (hbelow : ∀ q : ℚ, 0 ≤ q → q < B2 → get_tick_size q ≤ t) :
    0 ≤ round_price_to_tick p "up" ∧
      (round_price_to_tick p "up"
        / get_tick_size (round_price_to_tick p "up")).den = 1 := by
  have htpos : 0 < t := ht ▸ get_tick_size_pos p
  have hteps : (1/10^12:ℚ) < t := by
    have := get_tick_size_ge p
    rw [ht] at this
    linarith
  have htm : t ∈ tickValues := ht ▸ get_tick_size_mem p
  set arg := (p + t - 1/10^12) / t with hargdef
  have harg0 : 0 ≤ arg := by
    apply div_nonneg _ htpos.le
    linarith
  have hqdef : round_price_to_tick p "up" = (⌊arg⌋ : ℚ) * t := by
    rw [round_up_def, ht, pyInt_of_nonneg harg0]
  have hm0 : (0:ℚ) ≤ (⌊arg⌋:ℚ) := by
    exact_mod_cast Int.floor_nonneg.mpr harg0
  have h0 : 0 ≤ round_price_to_tick p "up" := by
    rw [hqdef]
    exact mul_nonneg hm0 htpos.le
  refine ⟨h0, ?_⟩
  have hub : (⌊arg⌋:ℚ) * t ≤ p + t - 1/10^12 := by
    calc (⌊arg⌋:ℚ) * t ≤ arg * t :=
          mul_le_mul_of_nonneg_right (Int.floor_le arg) htpos.le
      _ = p + t - 1/10^12 := div_mul_cancel₀ _ (ne_of_gt htpos)
  by_cases hcase : (⌊arg⌋:ℚ) * t < B2
  · rw [hqdef]
    exact den_one_mult htm (get_tick_size_mem _)
      (hbelow _ (mul_nonneg hm0 htpos.le) hcase)
  · push_neg at hcase
    have hq_eq : (⌊arg⌋:ℚ) * t = B2 := by
      have h1 : (⌊arg⌋:ℚ) * t < ((b+1:ℤ):ℚ) * t := by
        push_cast
        nlinarith
      have h2 : ⌊arg⌋ < b + 1 := by
        exact_mod_cast lt_of_mul_lt_mul_right h1 htpos.le
      have h3 : (b:ℚ) * t ≤ (⌊arg⌋:ℚ) * t := by
        rw [hB]
        exact hcase
      have h4 : b ≤ ⌊arg⌋ := by
        exact_mod_cast le_of_mul_le_mul_right h3 htpos
      have hba : ⌊arg⌋ = b := by omega
      rw [hba, hB]
    rw [hqdef, hq_eq]
    exact hB2den

lemma tick_at_2000000 : get_tick_size 2000000 = 1000 := by
  unfold get_tick_size
  rw [if_pos (by norm_num)]

lemma tick_at_1000000 : get_tick_size 1000000 = 500 := by
  unfold get_tick_size
  rw [if_neg (by norm_num), if_pos (by norm_num)]

lemma tick_at_500000 : get_tick_size 500000 = 100 := by
  unfold get_tick_size
  rw [if_neg (by norm_num), if_neg (by norm_num), if_pos (by norm_num)]

lemma tick_at_100000 : get_tick_size 100000 = 50 := by
  unfold get_tick_size
  rw [if_neg (by norm_num), if_neg (by norm_num), if_neg (by norm_num), if_pos (by norm_num)]

lemma tick_at_10000 : get_tick_size 10000 = 10 := by
  unfold get_tick_size
  rw [if_neg (by norm_num), if_neg (by norm_num), if_neg (by norm_num), if_neg (by norm_num), if_pos (by norm_num)]

lemma tick_at_1000 : get_tick_size 1000 = 5 := by
  unfold get_tick_size
  rw [if_neg (by norm_num), if_neg (by norm_num), if_neg (by norm_num), if_neg (by norm_num), if_neg (by norm_num), if_pos (by norm_num)]

lemma tick_at_100 : get_tick_size 100 = 1 := by
  unfold get_tick_size
  rw [if_neg (by norm_num), if_neg (by norm_num), if_neg (by norm_num), if_neg (by norm_num), if_neg (by norm_num), if_neg (by norm_num), if_pos (by norm_num)]

lemma tick_at_10 : get_tick_size 10 = 1/10 := by
  unfold get_tick_size
  rw [if_neg (by norm_num), if_neg (by norm_num), if_neg (by norm_num), if_neg (by norm_num), if_neg (by norm_num), if_neg (by norm_num), if_neg (by norm_num), if_pos (by norm_num)]

set_option maxHeartbeats 3200000 in
/-- Rounding up yields a nonnegative exact multiple of its own tick. -/
lemma up_mult {p : ℚ} (hp : 0 < p) :
    0 ≤ round_price_to_tick p "up" ∧
      (round_price_to_tick p "up"
        / get_tick_size (round_price_to_tick p "up")).den = 1 := by
  by_cases h1 : (2000000:ℚ) ≤ p
  · have ht : get_tick_size p = 1000 := by
      unfold get_tick_size
      rw [if_pos h1]
    have harg0 : (0:ℚ) ≤ (p + 1000 - 1/10^12)/1000 := by
      apply div_nonneg _ (by norm_num)
      linarith
    have hqdef : round_price_to_tick p "up"
        = (⌊(p + 1000 - 1/10^12)/1000⌋ : ℚ) * 1000 := by
      rw [round_up_def, ht, pyInt_of_nonneg harg0]
    have hge : (2000:ℤ) ≤ ⌊(p + 1000 - 1/10^12)/1000⌋ := by
      apply Int.le_floor.mpr
      push_cast
      rw [le_div_iff (by norm_num : (0:ℚ) < 1000)]
      linarith
    have hgeq : ((2000:ℤ):ℚ) ≤ (⌊(p + 1000 - 1/10^12)/1000⌋ : ℚ) := by
      exact_mod_cast hge
    have hq2 : (2000000:ℚ) ≤ round_price_to_tick p "up" := by
      rw [hqdef]
      nlinarith
    have ht2 : get_tick_size (round_price_to_tick p "up") = 1000 := by
      unfold get_tick_size
      rw [if_pos hq2]
    refine ⟨by linarith, ?_⟩
    rw [ht2, hqdef]
    have hrw : ((⌊(p + 1000 - 1/10^12)/1000⌋:ℚ) * 1000) / 1000
        = ((⌊(p + 1000 - 1/10^12)/1000⌋:ℤ):ℚ) := by
      field_simp
    rw [hrw, Rat.den_intCast]
  · push_neg at h1
    by_cases h2 : (1000000:ℚ) ≤ p
    · refine up_mult_aux p 500 2000000 4000 ?_ hp h1 (by norm_num) (den_one_of_eq_int (show (2000000:ℚ)/get_tick_size 2000000 = ((2000:ℤ):ℚ) by rw [tick_at_2000000]; norm_num)) ?_
      · unfold get_tick_size
        rw [if_neg (not_le.mpr h1), if_pos h2]
      · intro q hq0 hqB
        unfold get_tick_size
        split_ifs <;> linarith
    · push_neg at h2
      by_cases h3 : (500000:ℚ) ≤ p
      · refine up_mult_aux p 100 1000000 10000 ?_ hp h2 (by norm_num) (den_one_of_eq_int (show (1000000:ℚ)/get_tick_size 1000000 = ((2000:ℤ):ℚ) by rw [tick_at_1000000]; norm_num)) ?_
        · unfold get_tick_size
          rw [if_neg (not_le.mpr h1), if_neg (not_le.mpr h2), if_pos h3]
        · intro q hq0 hqB
          unfold get_tick_size
          split_ifs <;> linarith
      · push_neg at h3
        by_cases h4 : (100000:ℚ) ≤ p
        · refine up_mult_aux p 50 500000 10000 ?_ hp h3 (by norm_num) (den_one_of_eq_int (show (500000:ℚ)/get_tick_size 500000 = ((5000:ℤ):ℚ) by rw [tick_at_500000]; norm_num)) ?_
          · unfold get_tick_size
            rw [if_neg (not_le.mpr h1), if_neg (not_le.mpr h2),
              if_neg (not_le.mpr h3), if_pos h4]
          · intro q hq0 hqB
            unfold get_tick_size
            split_ifs <;> linarith
        · push_neg at h4
          by_cases h5 : (10000:ℚ) ≤ p
          · refine up_mult_aux p 10 100000 10000 ?_ hp h4 (by norm_num) (den_one_of_eq_int (show (100000:ℚ)/get_tick_size 100000 = ((2000:ℤ):ℚ) by rw [tick_at_100000]; norm_num)) ?_
            · unfold get_tick_size
              rw [if_neg (not_le.mpr h1), if_neg (not_le.mpr h2),
                if_neg (not_le.mpr h3), if_neg (not_le.mpr h4), if_pos h5]
            · intro q hq0 hqB
              unfold get_tick_size
              split_ifs <;> linarith
          · push_neg at h5
            by_cases h6 : (1000:ℚ) ≤ p
            · refine up_mult_aux p 5 10000 2000 ?_ hp h5 (by norm_num) (den_one_of_eq_int (show (10000:ℚ)/get_tick_size 10000 = ((1000:ℤ):ℚ) by rw [tick_at_10000]; norm_num)) ?_
              · unfold get_tick_size
                rw [if_neg (not_le.mpr h1), if_neg (not_le.mpr h2),
                  if_neg (not_le.mpr h3), if_neg (not_le.mpr h4),
                  if_neg (not_le.mpr h5), if_pos h6]
              · intro q hq0 hqB
                unfold get_tick_size
                split_ifs <;> linarith
            · push_neg at h6
              by_cases h7 : (100:ℚ) ≤ p
              · refine up_mult_aux p 1 1000 1000 ?_ hp h6 (by norm_num) (den_one_of_eq_int (show (1000:ℚ)/get_tick_size 1000 = ((200:ℤ):ℚ) by rw [tick_at_1000]; norm_num)) ?_
                · unfold get_tick_size
                  rw [if_neg (not_le.mpr h1), if_neg (not_le.mpr h2),
                    if_neg (not_le.mpr h3), if_neg (not_le.mpr h4),
                    if_neg (not_le.mpr h5), if_neg (not_le.mpr h6), if_pos h7]
                · intro q hq0 hqB
                  unfold get_tick_size
                  split_ifs <;> linarith
              · push_neg at h7
                by_cases h8 : (10:ℚ) ≤ p
                · refine up_mult_aux p (1/10) 100 1000 ?_ hp h7 (by norm_num) (den_one_of_eq_int (show (100:ℚ)/get_tick_size 100 = ((100:ℤ):ℚ) by rw [tick_at_100]; norm_num)) ?_
                  · unfold get_tick_size
                    rw [if_neg (not_le.mpr h1), if_neg (not_le.mpr h2),
                      if_neg (not_le.mpr h3), if_neg (not_le.mpr h4),
                      if_neg (not_le.mpr h5), if_neg (not_le.mpr h6),
                      if_neg (not_le.mpr h7), if_pos h8]
                  · intro q hq0 hqB
                    unfold get_tick_size
                    split_ifs <;> linarith
                · push_neg at h8
                  refine up_mult_aux p (1/100) 10 1000 ?_ hp h8 (by norm_num) (den_one_of_eq_int (show (10:ℚ)/get_tick_size 10 = ((100:ℤ):ℚ) by rw [tick_at_10]; norm_num)) ?_
                  · unfold get_tick_size
                    rw [if_neg (not_le.mpr h1), if_neg (not_le.mpr h2),
                      if_neg (not_le.mpr h3), if_neg (not_le.mpr h4),
                      if_neg (not_le.mpr h5), if_neg (not_le.mpr h6),
                      if_neg (not_le.mpr h7), if_neg (not_le.mpr h8)]
                  · intro q hq0 hqB
                    unfold get_tick_size
                    split_ifs <;> linarith

/-- C8 (amended): for every price p > 0, `round_price_to_tick p "up"` is
greater than `p - 1e-12` (the 1e-12 float-noise guard in the source means
the rounded price can fall up to 1e-12 short of p, so `up ≥ p` does not
hold in general), `round_price_to_tick p "down" ≤ p`, and both modes are
idempotent on their own output. -/
theorem C8_tick_rounding_amended (p : ℚ) (hp : 0 < p) :
    p - 1/10^12 < round_price_to_tick p "up" ∧
    round_price_to_tick p "down" ≤ p ∧
    round_price_to_tick (round_price_to_tick p "up") "up"
      = round_price_to_tick p "up" ∧
    round_price_to_tick (round_price_to_tick p "down") "down"
      = round_price_to_tick p "down" := by
  obtain ⟨hu0, hud⟩ := up_mult hp
  obtain ⟨hd0, hdd⟩ := down_mult hp
  exact ⟨round_up_gt hp, round_down_le hp.le, (round_fixed hu0 hud).1,
    (round_fixed hd0 hdd).2⟩

/-- C8 counterexample: at p = 1e-13 > 0 the claim
`round_price_to_tick p "up" ≥ p` fails: the 1e-12 guard pushes the price
down to 0, which is strictly below p. -/
theorem C8_tick_rounding_counterexample :
    0 < (1/10^13 : ℚ) ∧
      ¬ ((1/10^13 : ℚ) ≤ round_price_to_tick (1/10^13) "up") := by
  with_unfolding_all decide

/-- Witness for C8 at the concrete price 3. -/
theorem C8_tick_rounding_witness :
    (3:ℚ) - 1/10^12 < round_price_to_tick 3 "up" ∧
    round_price_to_tick 3 "down" ≤ 3 ∧
    round_price_to_tick (round_price_to_tick 3 "up") "up"
      = round_price_to_tick 3 "up" ∧
    round_price_to_tick (round_price_to_tick 3 "down") "down"
      = round_price_to_tick 3 "down" :=
  C8_tick_rounding_amended 3 (by norm_num)

-- ----------------------------------------------------------------
-- Signal votes on a constant price series
-- ----------------------------------------------------------------

lemma listMean_replicate {n : ℕ} (hn : n ≠ 0) (c : ℚ) :
    listMean (List.replicate n c) = c := by
  unfold listMean
  rw [List.sum_replicate, List.length_replicate, nsmul_eq_mul]
  field_simp

lemma popVar_replicate (n : ℕ) (c : ℚ) : popVar (List.replicate n c) = 0 := by
  rcases Nat.eq_zero_or_pos n with h | h
  · subst h
    simp [popVar, listMean]
  · unfold popVar
    rw [listMean_replicate (Nat.pos_iff_ne_zero.mp h), List.map_replicate]
    simp

lemma getD_replicate {α : Type} {n i : ℕ} (h : i < n) (c d : α) :
    (List.replicate n c).getD i d = c := by
  rw [List.getD_eq_getElem?_getD, List.getElem?_replicate, if_pos h]
  rfl

lemma pyNeg_replicate {n k : ℕ} (h1 : 1 ≤ k) (h2 : k ≤ n) (c : ℚ) :
    pyNeg (List.replicate n c) k = c := by
  unfold pyNeg
  rw [List.length_replicate]
  exact getD_replicate (by omega) c 0

lemma foldl_max_const (c : ℚ) : ∀ m, List.foldl max c (List.replicate m c) = c := by
  intro m
  induction m with
  | zero => rfl
  | succ k ih => simpa [List.replicate_succ, max_self] using ih

lemma foldl_min_const (c : ℚ) : ∀ m, List.foldl min c (List.replicate m c) = c := by
  intro m
  induction m with
  | zero => rfl
  | succ k ih => simpa [List.replicate_succ, min_self] using ih

lemma listMax_replicate {n : ℕ} (h : 1 ≤ n) (c : ℚ) :
    listMax (List.replicate n c) = c := by
  obtain ⟨m, rfl⟩ : ∃ m, n = m + 1 := ⟨n - 1, by omega⟩
  rw [List.replicate_succ]
  exact foldl_max_const c m

lemma listMin_replicate {n : ℕ} (h : 1 ≤ n) (c : ℚ) :
    listMin (List.replicate n c) = c := by
  obtain ⟨m, rfl⟩ : ∃ m, n = m + 1 := ⟨n - 1, by omega⟩
  rw [List.replicate_succ]
  exact foldl_min_const c m

lemma foldl_ema_const (mlt c : ℚ) :
    ∀ m, List.foldl (fun acc price => (price - acc) * mlt + acc) c
      (List.replicate m c) = c := by
  intro m
  induction m with
  | zero => rfl
  | succ k ih => simpa [List.replicate_succ] using ih

lemma ema_replicate {n p : ℕ} (hp : 1 ≤ p) (hn : 1 ≤ n) (c : ℚ) :
    ema (List.replicate n c) p = c := by
  unfold ema
  rw [List.length_replicate]
  split_ifs with h
  · exact listMean_replicate (by omega) c
  · rw [List.drop_replicate, List.take_replicate]
    have hmin : min p n = p := by omega
    rw [hmin, listMean_replicate (by omega) c]
    exact foldl_ema_const _ c _

lemma listMean_of_all_zero {l : List ℚ} (h : ∀ x ∈ l, x = 0) :
    listMean l = 0 := by
  unfold listMean
  rw [List.sum_eq_zero h, zero_div]

lemma filterMap_all_some {α β : Type} (g : α → Option β) (h : α → β)
    (l : List α) (hg : ∀ a ∈ l, g a = some (h a)) :
    l.filterMap g = l.map h := by
  induction l with
  | nil => exact List.filterMap_nil g
  | cons x xs ihfm =>
    rw [List.filterMap_cons, hg x (List.mem_cons_self x xs), List.map_cons,
      ihfm (fun y hy => hg y (List.mem_cons_of_mem x hy))]

lemma sig_trend_const {n : ℕ} (hn : 2 ≤ n) (c : ℚ) :
    sig_trend (List.replicate n c) = -1 := by
  unfold sig_trend
  rw [List.length_replicate, if_neg (by omega),
    pyNeg_replicate (by omega) (by omega), pyNeg_replicate (by omega) (by omega),
    if_neg (lt_irrefl c)]

lemma sig_momentum_const {n : ℕ} (hn : 11 ≤ n) (c : ℚ) :
    sig_momentum (List.replicate n c) 10 = -1 := by
  unfold sig_momentum
  rw [List.length_replicate, if_neg (by omega),
    pyNeg_replicate (by omega) (by omega), pyNeg_replicate (by omega) (by omega)]
  norm_num

lemma sig_swing_const {n : ℕ} (hn : 20 ≤ n) (c : ℚ) :
    sig_swing (List.replicate n c) 5 20 = -1 := by
  unfold sig_swing
  rw [List.length_replicate, if_neg (by omega), List.drop_replicate,
    List.drop_replicate, listMean_replicate (by omega),
    listMean_replicate (by omega), if_neg (lt_irrefl c)]

lemma sig_scalping_const {n : ℕ} (hn : 11 ≤ n) (c : ℚ) :
    sig_scalping (List.replicate n c) 10 = 0 := by
  unfold sig_scalping
  rw [List.length_replicate, if_neg (by omega), List.drop_replicate,
    List.take_replicate]
  simp [popVar_replicate]

lemma sig_day_const {n : ℕ} (hn : 20 ≤ n) {c : ℚ} (hc : 0 < c) :
    sig_day (List.replicate n c) 20 = -1 := by
  unfold sig_day
  have h20 : n - (n - 20) = 20 := by omega
  rw [List.length_replicate, if_neg (by omega), List.drop_replicate, h20]
  simp only [popVar_replicate, listMean_replicate (show (20:ℕ) ≠ 0 by norm_num)]
  rw [if_neg (ne_of_gt hc), if_pos (by rw [if_pos hc]; positivity),
    pyNeg_replicate (by omega) (by omega), pyNeg_replicate (by omega) (by omega),
    if_neg (lt_irrefl c)]

lemma sig_price_action_const {n : ℕ} (hn : 3 ≤ n) (c : ℚ) :
    sig_price_action (List.replicate n c) = 0 := by
  unfold sig_price_action
  rw [List.length_replicate, if_neg (by omega), List.take_replicate,
    pyNeg_replicate (by omega) (by omega)]
  have hmin : min (n - 1) n = n - 1 := by omega
  rw [hmin, listMax_replicate (by omega), listMin_replicate (by omega),
    if_neg (lt_irrefl c), if_neg (lt_irrefl c)]

lemma sig_rsi_const {n : ℕ} (hn : 15 ≤ n) (c : ℚ) :
    sig_rsi (List.replicate n c) 14 = -1 := by
  unfold sig_rsi
  rw [List.length_replicate, if_neg (by omega), List.tail_replicate,
    List.zipWith_replicate]
  have hmin : min n (n - 1) = n - 1 := by omega
  rw [hmin, sub_self]
  simp only [List.map_replicate, lt_self_iff_false, if_false, abs_zero,
    List.length_replicate]
  rw [if_neg (by omega)]
  have h14 : n - 1 - (n - 1 - 14) = 14 := by omega
  simp only [List.drop_replicate, h14,
    listMean_replicate (show (14:ℕ) ≠ 0 by norm_num)]
  norm_num

lemma sig_bollinger_const {n : ℕ} (hn : 20 ≤ n) (c : ℚ) :
    sig_bollinger (List.replicate n c) 20 2 = 1 := by
  unfold sig_bollinger
  have h20 : n - (n - 20) = 20 := by omega
  rw [List.length_replicate, if_neg (by omega), List.drop_replicate, h20]
  simp only [popVar_replicate, listMean_replicate (show (20:ℕ) ≠ 0 by norm_num),
    pyNeg_replicate (show 1 ≤ 1 by norm_num) (show 1 ≤ n by omega)]
  rw [if_pos (by constructor <;> simp)]

lemma sig_macd_const {n : ℕ} (hn : 61 ≤ n) (c : ℚ) :
    sig_macd (List.replicate n c) 12 26 9 = 0 := by
  unfold sig_macd
  rw [List.length_replicate, if_neg (by omega), if_neg (by omega)]
  have hdrop : (List.range n).drop (n - 35)
      = (List.range 35).map ((n - 35) + ·) := by
    have hsplit : List.range n
        = List.range (n - 35) ++ (List.range 35).map ((n - 35) + ·) := by
      rw [← List.range_add]
      congr 1
      omega
    rw [hsplit]
    exact List.drop_left' (List.length_range _)
  have hXmem : ∀ i ∈ (List.range 35).map ((n - 35) + ·), 26 ≤ i ∧ i < n := by
    intro i hi
    rw [List.mem_map] at hi
    obtain ⟨j, hj, rfl⟩ := hi
    rw [List.mem_range] at hj
    omega
  have hhist : ((List.range n).drop (n - 35)).filterMap
      (fun i => if i < 26 then none
        else some (ema ((List.replicate n c).take (i+1)) 12
          - ema ((List.replicate n c).take (i+1)) 26))
      = ((List.range 35).map ((n - 35) + ·)).map
          (fun i => ema ((List.replicate n c).take (i+1)) 12
            - ema ((List.replicate n c).take (i+1)) 26) := by
    rw [hdrop]
    apply filterMap_all_some
    intro i hi
    have h26 := (hXmem i hi).1
    rw [if_neg (by omega)]
  have hzero : ∀ x ∈ ((List.range 35).map ((n - 35) + ·)).map
      (fun i => ema ((List.replicate n c).take (i+1)) 12
        - ema ((List.replicate n c).take (i+1)) 26), x = 0 := by
    intro y hy
    rcases List.mem_map.mp hy with ⟨i, hi, rfl⟩
    obtain ⟨h26, hlt⟩ := hXmem i hi
    rw [List.take_replicate]
    have hmin : min (i+1) n = i + 1 := by omega
    rw [hmin, ema_replicate (show 1 ≤ 12 by norm_num) (by omega),
      ema_replicate (show 1 ≤ 26 by norm_num) (by omega), sub_self]
  have hlen : (((List.range 35).map ((n - 35) + ·)).map
      (fun i => ema ((List.replicate n c).take (i+1)) 12
        - ema ((List.replicate n c).take (i+1)) 26)).length = 35 := by
    rw [List.length_map, List.length_map]
    rw [List.length_range]
  have hmean : listMean ((((List.range 35).map ((n - 35) + ·)).map
      (fun i => ema ((List.replicate n c).take (i+1)) 12
        - ema ((List.replicate n c).take (i+1)) 26)).drop (35 - 9)) = 0 := by
    apply listMean_of_all_zero
    intro x hx
    exact hzero x (List.mem_of_mem_drop hx)
  simp only [hhist, hlen, hmean,
    ema_replicate (show 1 ≤ 12 by norm_num) (show 1 ≤ n by omega),
    ema_replicate (show 1 ≤ 26 by norm_num) (show 1 ≤ n by omega), sub_self]
  norm_num

-- ----------------------------------------------------------------
-- Tri-state votes and the signal-engine contract (C7)
-- ----------------------------------------------------------------

lemma sig_trend_mem (prices : List ℚ) :
    sig_trend prices = -1 ∨ sig_trend prices = 0 ∨ sig_trend prices = 1 := by
  unfold sig_trend
  split_ifs <;> norm_num

lemma sig_momentum_mem (prices : List ℚ) (period : ℕ) :
    sig_momentum prices period = -1 ∨ sig_momentum prices period = 0
      ∨ sig_momentum prices period = 1 := by
  unfold sig_momentum
  split_ifs <;> norm_num

lemma sig_swing_mem (prices : List ℚ) (s l : ℕ) :
    sig_swing prices s l = -1 ∨ sig_swing prices s l = 0
      ∨ sig_swing prices s l = 1 := by
  unfold sig_swing
  split_ifs <;> norm_num

lemma sig_scalping_mem (prices : List ℚ) (lb : ℕ) :
    sig_scalping prices lb = -1 ∨ sig_scalping prices lb = 0
      ∨ sig_scalping prices lb = 1 := by
  unfold sig_scalping
  simp only []
  split_ifs <;> norm_num

lemma sig_day_mem (prices : List ℚ) (lb : ℕ) :
    sig_day prices lb = -1 ∨ sig_day prices lb = 0 ∨ sig_day prices lb = 1 := by
  unfold sig_day
  simp only []
  split_ifs <;> norm_num

lemma sig_price_action_mem (prices : List ℚ) :
    sig_price_action prices = -1 ∨ sig_price_action prices = 0
      ∨ sig_price_action prices = 1 := by
  unfold sig_price_action
  simp only []
  split_ifs <;> norm_num

lemma sig_rsi_mem (prices : List ℚ) (period : ℕ) :
    sig_rsi prices period = -1 ∨ sig_rsi prices period = 0
      ∨ sig_rsi prices period = 1 := by
  unfold sig_rsi
  simp only []
  split_ifs <;> norm_num

lemma sig_bollinger_mem (prices : List ℚ) (period : ℕ) (ns : ℚ) :
    sig_bollinger prices period ns = -1 ∨ sig_bollinger prices period ns = 0
      ∨ sig_bollinger prices period ns = 1 := by
  unfold sig_bollinger
  simp only []
  split_ifs <;> norm_num

lemma sig_macd_mem (prices : List ℚ) (f s g : ℕ) :
    sig_macd prices f s g = -1 ∨ sig_macd prices f s g = 0
      ∨ sig_macd prices f s g = 1 := by
  unfold sig_macd
  simp only []
  split_ifs <;> norm_num

lemma lookup_mem {ps : List (String × ℚ)} {key : String} {val : ℚ}
    (h : ps.lookup key = some val) : (key, val) ∈ ps := by
  obtain ⟨l₁, l₂, rfl, h2⟩ := List.lookup_eq_some_iff.mp h
  exact List.mem_append.mpr (Or.inr (List.mem_cons_self _ _))

lemma strategyVote_mem (prices : List ℚ) (k : String) :
    strategyVote prices k = -1 ∨ strategyVote prices k = 0
      ∨ strategyVote prices k = 1 := by
  unfold strategyVote
  rcases hlk : (signalsTable prices).lookup k with _ | v
  · simp
  · have hmem := lookup_mem hlk
    simp only [signalsTable, Prod.mk.injEq, List.mem_cons] at hmem
    simp only [List.not_mem_nil, or_false] at hmem
    simp only [Option.getD_some]
    rcases hmem with ⟨e1, rfl⟩ | ⟨e2, rfl⟩ | ⟨e3, rfl⟩ | ⟨e4, rfl⟩ | ⟨e5, rfl⟩
      | ⟨e6, rfl⟩ | ⟨e7, rfl⟩ | ⟨e8, rfl⟩ | ⟨e9, rfl⟩
    · exact sig_trend_mem prices
    · exact sig_momentum_mem prices 10
    · exact sig_swing_mem prices 5 20
    · exact sig_scalping_mem prices 10
    · exact sig_day_mem prices 20
    · exact sig_price_action_mem prices
    · exact sig_rsi_mem prices 14
    · exact sig_bollinger_mem prices 20 2
    · exact sig_macd_mem prices 12 26 9

/-- C7: the Signal Engine contract.  For any prices list with at least one
element and any weights association list, `ensemble_signal` is the sum over
the entries of `weights` of weight times vote (so table keys absent from
`weights` are skipped); every vote is one of -1, 0, 1 (a strategy with
insufficient history votes 0 rather than failing — the embedding is total);
and a key absent from the internal strategy table contributes vote 0. -/
theorem C7_signal_engine_contract (prices : List ℚ) (h1 : 1 ≤ prices.length)
    (weights : List (String × ℚ)) :
    ensemble_signal prices weights
      = (weights.map (fun kw => kw.2 * strategyVote prices kw.1)).sum
    ∧ (∀ k : String, strategyVote prices k = -1 ∨ strategyVote prices k = 0
        ∨ strategyVote prices k = 1)
    ∧ (∀ k : String, (∀ p ∈ signalsTable prices, k ≠ p.1)
        → strategyVote prices k = 0) := by
  refine ⟨rfl, fun k => strategyVote_mem prices k, fun k hk => ?_⟩
  unfold strategyVote
  rw [List.lookup_eq_none_iff.mpr (fun p hp => by simpa using (hk p hp))]
  rfl

/-- Witness for C7 on a one-element price list, with a weights list that
has one known key and one key foreign to the strategy table. -/
theorem C7_signal_engine_witness :
    ensemble_signal [(100:ℚ)] [("trend", (1:ℚ)/2), ("muon", 3)]
      = ([("trend", (1:ℚ)/2), ("muon", 3)].map
          (fun kw => kw.2 * strategyVote [(100:ℚ)] kw.1)).sum
    ∧ (∀ k : String, strategyVote [(100:ℚ)] k = -1
        ∨ strategyVote [(100:ℚ)] k = 0 ∨ strategyVote [(100:ℚ)] k = 1)
    ∧ (∀ k : String, (∀ p ∈ signalsTable [(100:ℚ)], k ≠ p.1)
        → strategyVote [(100:ℚ)] k = 0) :=
  C7_signal_engine_contract [(100:ℚ)] (by norm_num) [("trend", (1:ℚ)/2), ("muon", 3)]

/-- On a constant price series of length at least 61, the tie-sensitive
strategies take their `else` branches: trend, momentum, swing, day and rsi
vote -1, bollinger votes +1, and only scalping, price_action and macd
vote 0. -/
lemma signalsTable_const {n : ℕ} (hn : 61 ≤ n) {c : ℚ} (hc : 0 < c) :
    signalsTable (List.replicate n c)
      = [("trend", -1), ("momentum", -1), ("swing", -1), ("scalping", 0),
         ("day", -1), ("price_action", 0), ("rsi", -1), ("bollinger", 1),
         ("macd", 0)] := by
  unfold signalsTable
  rw [sig_trend_const (by omega), sig_momentum_const (by omega),
    sig_swing_const (by omega), sig_scalping_const (by omega),
    sig_day_const (by omega) hc, sig_price_action_const (by omega),
    sig_rsi_const (by omega), sig_bollinger_const (by omega),
    sig_macd_const (by omega)]

/-- The ensemble signal on a long constant series is the weighted sum of
the constant votes. -/
lemma ensemble_const {n : ℕ} (hn : 61 ≤ n) {c : ℚ} (hc : 0 < c)
    (weights : List (String × ℚ)) :
    ensemble_signal (List.replicate n c) weights
      = (weights.map (fun kw => kw.2 * constVote kw.1)).sum := by
  unfold ensemble_signal strategyVote constVote
  simp only [signalsTable_const hn hc]

/-- C6 counterexample: on 250 constant-price candles not every strategy
votes 0 (trend votes -1, bollinger votes +1), and the ensemble score is
not 0 for every weight vector (all weight on bollinger gives score 1). -/
theorem C6_constant_scenario_counterexample :
    sig_trend (List.replicate 250 (100:ℚ)) = -1
    ∧ sig_bollinger (List.replicate 250 (100:ℚ)) 20 2 = 1
    ∧ ¬ (ensemble_signal (List.replicate 250 (100:ℚ)) [("bollinger", 1)] = 0) := by
  refine ⟨sig_trend_const (by omega) 100, sig_bollinger_const (by omega) 100, ?_⟩
  rw [ensemble_const (show 61 ≤ 250 by norm_num) (show (0:ℚ) < 100 by norm_num)]
  simp [constVote, List.lookup]

-- ----------------------------------------------------------------
-- Backtest loop structure and the early-stop sentinel (C4)
-- ----------------------------------------------------------------

lemma btLoop_succ (P : BTParams) (cs : List Candle) (n : ℕ) (st : BTState) :
    btLoop P cs (n+1) st = btLoop P cs n st >>= fun s => btStep P cs s n := by
  unfold btLoop
  rw [List.range_succ, List.foldlM_append]
  simp

/-- C4: the early-stopping sentinel.  If the `_backtest` loop reaches a
step `i ≥ early_stop_candles` in state `st` and the cumulative return of
this step's marked-to-market equity is at or below the (negative)
early-stop threshold, the whole backtest returns immediately with the
sentinel metrics: max_drawdown 1, sharpe -999, win_rate 0, the true
cumulative return at that step, and the trade count accumulated so far. -/
theorem C4_early_stop_sentinel (candles : List Candle)
    (weights : List (String × ℚ))
    (threshold initial_cash fee_rate fee_buffer aggressiveness est : ℚ)
    (window esc i : ℕ) (st : BTState)
    (hi : i < candles.length - 1)
    (hrun : btLoop (btParamsOf candles weights threshold initial_cash fee_rate
        fee_buffer aggressiveness window est esc) candles i (btInit initial_cash)
      = Except.ok st)
    (hesc : esc ≤ i)
    (hcond : (st.cash_krw + st.coin_qty * (candles.getD (i+1) dCandle).close)
        / initial_cash - 1 ≤ est) :
    backtest candles weights threshold initial_cash fee_rate fee_buffer
        aggressiveness window est esc
      = { final_equity := st.cash_krw
            + st.coin_qty * (candles.getD (i+1) dCandle).close,
          total_return := (st.cash_krw
            + st.coin_qty * (candles.getD (i+1) dCandle).close)
            / initial_cash - 1,
          max_drawdown := 1, sharpe := -999, win_rate := 0,
          num_trades := st.total_trades } := by
  have hstep : btStep (btParamsOf candles weights threshold initial_cash fee_rate
      fee_buffer aggressiveness window est esc) candles st i
      = Except.error
        { final_equity := st.cash_krw
            + st.coin_qty * (candles.getD (i+1) dCandle).close,
          total_return := (st.cash_krw
            + st.coin_qty * (candles.getD (i+1) dCandle).close)
            / initial_cash - 1,
          max_drawdown := 1, sharpe := -999, win_rate := 0,
          num_trades := st.total_trades } := by
    unfold btStep
    simp only [btParamsOf]
    rw [if_pos (And.intro hesc hcond)]
  have hchain : ∀ m, i + 1 ≤ m →
      btLoop (btParamsOf candles weights threshold initial_cash fee_rate
        fee_buffer aggressiveness window est esc) candles m (btInit initial_cash)
      = Except.error
        { final_equity := st.cash_krw
            + st.coin_qty * (candles.getD (i+1) dCandle).close,
          total_return := (st.cash_krw
            + st.coin_qty * (candles.getD (i+1) dCandle).close)
            / initial_cash - 1,
          max_drawdown := 1, sharpe := -999, win_rate := 0,
          num_trades := st.total_trades } := by
    intro m hm
    induction m, hm using Nat.le_induction with
    | base =>
      rw [btLoop_succ, hrun]
      exact hstep
    | succ k hk ih =>
      rw [btLoop_succ, ih]
      rfl
  unfold backtest
  simp only []
  rw [hchain (candles.length - 1) (by omega)]

set_option maxRecDepth 4000 in
/-- Witness for C4: a five-candle series in which a buy at step 2 is
followed by a price collapse; at step 3 the cumulative return is -99%,
at or below the -50% early-stop threshold, and the backtest returns the
sentinel metrics with the true total_return -99/100 and the one
accumulated trade. -/
theorem C4_early_stop_sentinel_witness :
    backtest [⟨100,100⟩, ⟨100,100⟩, ⟨100,200⟩, ⟨100,200⟩, ⟨100,1⟩]
        [("trend", 1)] (1/2) 10000 0 0 0 3 (-1/2) 3
      = { final_equity := 100, total_return := -99/100, max_drawdown := 1,
          sharpe := -999, win_rate := 0, num_trades := 1 } := by
  have h := C4_early_stop_sentinel
    [⟨100,100⟩, ⟨100,100⟩, ⟨100,200⟩, ⟨100,200⟩, ⟨100,1⟩]
    [("trend", 1)] (1/2) 10000 0 0 0 (-1/2) 3 3 3
    ⟨0, 100, [10000, 10000, 10000], [0, 0], 10000, 0, 1⟩
    (by norm_num)
    (by with_unfolding_all rfl)
    (by norm_num)
    (by with_unfolding_all decide)
  exact h.trans (by with_unfolding_all decide)

-- ----------------------------------------------------------------
-- All-or-nothing sell (C5)
-- ----------------------------------------------------------------

/-- C5: the sell branch of `_backtest`.  At a trading step (window
satisfied, early stop not triggered) where the score is at or below
`-threshold` (with threshold > 0, so the buy branch cannot fire first)
and a position is held: if the proceeds at the downward-tick-rounded
target price exceed the 5000 minimum notional, the entire position is
liquidated — the new position is exactly 0 — cash grows by proceeds
minus fee, the trade count increments, and a win is recorded exactly
when the resulting cash exceeds the equity recorded at this step;
otherwise the trading state (cash, position, trade and win counts) is
unchanged at this step (the equity-curve bookkeeping of the step happens
either way). -/
theorem C5_all_or_nothing_sell (P : BTParams) (candles : List Candle)
    (st : BTState) (i : ℕ)
    (hth : 0 < P.threshold)
    (hnoes : ¬ (P.early_stop_candles ≤ i
      ∧ (st.cash_krw + st.coin_qty * (candles.getD (i+1) dCandle).close)
          / P.initial_cash - 1 ≤ P.early_stop_threshold))
    (hwin : max 3 P.window ≤ i + 1)
    (hscore : scoreAt P.weights P.window candles i ≤ -P.threshold)
    (hqty : 0 < st.coin_qty) :
    (min_order_krw
        < round_price_to_tick (execPrice candles i * (1 - P.aggressiveness)) "down"
            * st.coin_qty →
      ∃ st', btStep P candles st i = Except.ok st'
        ∧ st'.coin_qty = 0
        ∧ st'.cash_krw = st.cash_krw
            + (round_price_to_tick (execPrice candles i * (1 - P.aggressiveness)) "down"
                * st.coin_qty
              - round_price_to_tick (execPrice candles i * (1 - P.aggressiveness)) "down"
                * st.coin_qty * P.fee_rate)
        ∧ st'.total_trades = st.total_trades + 1
        ∧ st'.win_trades
            = (if st.cash_krw + st.coin_qty * (candles.getD (i+1) dCandle).close
                  < st'.cash_krw
               then st.win_trades + 1 else st.win_trades))
    ∧ (round_price_to_tick (execPrice candles i * (1 - P.aggressiveness)) "down"
          * st.coin_qty ≤ min_order_krw →
      ∃ st', btStep P candles st i = Except.ok st'
        ∧ st'.cash_krw = st.cash_krw ∧ st'.coin_qty = st.coin_qty
        ∧ st'.total_trades = st.total_trades ∧ st'.win_trades = st.win_trades) := by
  unfold btStep
  simp only []
  rw [if_neg hnoes, if_neg (not_lt.mpr hwin),
    if_neg (not_le.mpr (show scoreAt P.weights P.window candles i < P.threshold by
      linarith)),
    if_pos hscore, if_pos hqty]
  constructor
  · intro hpr
    rw [if_pos hpr]
    exact ⟨_, rfl, rfl, rfl, rfl, rfl⟩
  · intro hle
    rw [if_neg (not_lt.mpr hle)]
    exact ⟨_, rfl, rfl, rfl, rfl, rfl⟩

set_option maxRecDepth 4000 in
/-- Witness for C5: a concrete full liquidation.  Holding 100 coins with
zero cash, the score at step 2 is -1 ≤ -1/2; the rounded sell price is
the next open 60, so the proceeds 6000 exceed the 5000 minimum and the
position is liquidated in full. -/
theorem C5_all_or_nothing_sell_witness :
    ∃ st', btStep ⟨[("trend", 1)], 1/2, 10000, 0, 0, 0, 3, -3/10, 100⟩
        [⟨100,100⟩, ⟨100,100⟩, ⟨100,50⟩, ⟨60,60⟩]
        ⟨0, 100, [], [], 0, 0, 0⟩ 2 = Except.ok st'
      ∧ st'.coin_qty = 0
      ∧ st'.cash_krw = (⟨0, 100, [], [], 0, 0, 0⟩ : BTState).cash_krw
          + (round_price_to_tick
              (execPrice [⟨100,100⟩, ⟨100,100⟩, ⟨100,50⟩, ⟨60,60⟩] 2
                * (1 - (⟨[("trend", 1)], 1/2, 10000, 0, 0, 0, 3, -3/10, 100⟩
                    : BTParams).aggressiveness)) "down"
              * (⟨0, 100, [], [], 0, 0, 0⟩ : BTState).coin_qty
            - round_price_to_tick
              (execPrice [⟨100,100⟩, ⟨100,100⟩, ⟨100,50⟩, ⟨60,60⟩] 2
                * (1 - (⟨[("trend", 1)], 1/2, 10000, 0, 0, 0, 3, -3/10, 100⟩
                    : BTParams).aggressiveness)) "down"
              * (⟨0, 100, [], [], 0, 0, 0⟩ : BTState).coin_qty
              * (⟨[("trend", 1)], 1/2, 10000, 0, 0, 0, 3, -3/10, 100⟩
                  : BTParams).fee_rate)
      ∧ st'.total_trades = (⟨0, 100, [], [], 0, 0, 0⟩ : BTState).total_trades + 1
      ∧ st'.win_trades
          = (if (⟨0, 100, [], [], 0, 0, 0⟩ : BTState).cash_krw
                + (⟨0, 100, [], [], 0, 0, 0⟩ : BTState).coin_qty
                  * (([⟨100,100⟩, ⟨100,100⟩, ⟨100,50⟩, ⟨60,60⟩]
                      : List Candle).getD (2+1) dCandle).close
                < st'.cash_krw
             then (⟨0, 100, [], [], 0, 0, 0⟩ : BTState).win_trades + 1
             else (⟨0, 100, [], [], 0, 0, 0⟩ : BTState).win_trades) :=
  (C5_all_or_nothing_sell ⟨[("trend", 1)], 1/2, 10000, 0, 0, 0, 3, -3/10, 100⟩
      [⟨100,100⟩, ⟨100,100⟩, ⟨100,50⟩, ⟨60,60⟩]
      ⟨0, 100, [], [], 0, 0, 0⟩ 2
      (by norm_num)
      (by with_unfolding_all decide)
      (by with_unfolding_all decide)
      (by with_unfolding_all decide)
      (by norm_num)).1
    (by with_unfolding_all decide)

-- ----------------------------------------------------------------
-- No-lookahead (C1)
-- ----------------------------------------------------------------

lemma slice_eq_map {l : List Candle} {a w : ℕ} (h : a + w ≤ l.length) :
    (l.drop a).take w = (List.range w).map (fun j => l.getD (a + j) dCandle) := by
  apply List.ext_getElem
  · rw [List.length_take, List.length_drop, List.length_map, List.length_range]
    omega
  · intro j h1 h2
    have hj : j < w := by
      rw [List.length_map, List.length_range] at h2
      exact h2
    rw [List.getElem_take, List.getElem_drop, List.getElem_map]
    rw [List.getElem_range, List.getD_eq_getElem?_getD,
      List.getElem?_eq_getElem (show a + j < l.length by omega),
      Option.getD_some]

lemma recentCloses_take {cs : List Candle} {wd ix : ℕ} (hw : wd ≤ ix + 1) :
    recentCloses cs wd ix
      = List.map Candle.close ((cs.take (ix+1)).drop (ix + 1 - wd)) := by
  unfold recentCloses
  rw [List.drop_take]
  congr 2
  omega

lemma getD_eq_of_take_eq {cs cs' : List Candle} {m j : ℕ}
    (h : cs.take m = cs'.take m) (hj : j < m) :
    cs.getD j dCandle = cs'.getD j dCandle := by
  rw [List.getD_eq_getElem?_getD, List.getD_eq_getElem?_getD,
    show cs[j]? = (cs.take m)[j]? by rw [List.getElem?_take_of_lt hj],
    show cs'[j]? = (cs'.take m)[j]? by rw [List.getElem?_take_of_lt hj], h]

/-- C1: no-lookahead of the backtest loop body.  At step `i` (with `i+1`
in range): once at least `window` bars are available, the signal slice is
exactly the `window` closes `candles[i+1-window .. i]` (all indices at
most `i`), and the score only depends on the first `i+1` candles; the
execution price is exactly `candles[i+1].open`; the whole step only
depends on the first `i+2` candles; and while the window is not yet full
the step is skipped — no trade, no cash or position change ("partial
windows are skipped, not zero-padded"). -/
theorem C1_no_lookahead (P : BTParams) (candles candles' : List Candle)
    (st : BTState) (i : ℕ) (hlen : i + 1 < candles.length) :
    (P.window ≤ i + 1 →
      recentCloses candles P.window i
        = (List.range P.window).map
            (fun j => (candles.getD (i + 1 - P.window + j) dCandle).close))
    ∧ (P.window ≤ i + 1 → candles.take (i+1) = candles'.take (i+1) →
        scoreAt P.weights P.window candles i
          = scoreAt P.weights P.window candles' i)
    ∧ execPrice candles i = (candles.getD (i + 1) dCandle).open_
    ∧ (candles.take (i+2) = candles'.take (i+2) → i + 1 < candles'.length →
        btStep P candles st i = btStep P candles' st i)
    ∧ (i + 1 < max 3 P.window → ∀ st', btStep P candles st i = Except.ok st' →
        st'.cash_krw = st.cash_krw ∧ st'.coin_qty = st.coin_qty
          ∧ st'.total_trades = st.total_trades) := by
  refine ⟨?slice, ?score, rfl, ?dep, ?skip⟩
  case slice =>
    intro hw
    unfold recentCloses
    rw [slice_eq_map (show (i + 1 - P.window) + P.window ≤ candles.length by omega),
      List.map_map]
    exact List.map_congr_left (fun j _ => rfl)
  case score =>
    intro hw hagree
    unfold scoreAt
    rw [recentCloses_take hw, recentCloses_take hw, hagree]
  case dep =>
    intro hagree hlen'
    have hcand : candles.getD (i+1) dCandle = candles'.getD (i+1) dCandle :=
      getD_eq_of_take_eq hagree (by omega)
    unfold btStep execPrice
    rw [hcand]
    by_cases hES : P.early_stop_candles ≤ i
        ∧ (st.cash_krw + st.coin_qty * (candles'.getD (i+1) dCandle).close)
            / P.initial_cash - 1 ≤ P.early_stop_threshold
    · rw [if_pos hES, if_pos hES]
    · rw [if_neg hES, if_neg hES]
      by_cases hskip : i + 1 < max 3 P.window
      · rw [if_pos hskip, if_pos hskip]
      · rw [if_neg hskip, if_neg hskip]
        have hw : P.window ≤ i + 1 := by omega
        have hagree1 : candles.take (i+1) = candles'.take (i+1) := by
          rw [show i + 1 = min (i+1) (i+2) by omega, ← List.take_take,
            ← List.take_take, hagree]
        have hs : scoreAt P.weights P.window candles i
            = scoreAt P.weights P.window candles' i := by
          unfold scoreAt
          rw [recentCloses_take hw, recentCloses_take hw, hagree1]
        rw [hs]
  case skip =>
    intro hskip st' hok
    unfold btStep at hok
    simp only [] at hok
    by_cases hES : P.early_stop_candles ≤ i
        ∧ (st.cash_krw + st.coin_qty * (candles.getD (i+1) dCandle).close)
            / P.initial_cash - 1 ≤ P.early_stop_threshold
    · rw [if_pos hES] at hok
      exact absurd hok (by simp)
    · rw [if_neg hES, if_pos hskip] at hok
      obtain rfl : _ = st' := Except.ok.inj hok
      exact ⟨rfl, rfl, rfl⟩

set_option maxRecDepth 4000 in
/-- Witness for C1 at step 2 with window 3 on a four-candle series, the
second series differing only in the (never-read) final candle. -/
theorem C1_no_lookahead_witness :
    ((⟨[("trend", 1)], 1/2, 10000, 0, 0, 0, 3, -3/10, 50⟩ : BTParams).window ≤ 2 + 1 →
      recentCloses [⟨100,100⟩, ⟨100,101⟩, ⟨100,102⟩, ⟨100,999⟩]
          (⟨[("trend", 1)], 1/2, 10000, 0, 0, 0, 3, -3/10, 50⟩ : BTParams).window 2
        = (List.range (⟨[("trend", 1)], 1/2, 10000, 0, 0, 0, 3, -3/10, 50⟩
            : BTParams).window).map
            (fun j => (([⟨100,100⟩, ⟨100,101⟩, ⟨100,102⟩, ⟨100,999⟩]
              : List Candle).getD
                (2 + 1 - (⟨[("trend", 1)], 1/2, 10000, 0, 0, 0, 3, -3/10, 50⟩
                  : BTParams).window + j) dCandle).close))
    ∧ ((⟨[("trend", 1)], 1/2, 10000, 0, 0, 0, 3, -3/10, 50⟩ : BTParams).window ≤ 2 + 1 →
        ([⟨100,100⟩, ⟨100,101⟩, ⟨100,102⟩, ⟨100,999⟩] : List Candle).take (2+1)
          = ([⟨100,100⟩, ⟨100,101⟩, ⟨100,102⟩, ⟨1,1⟩] : List Candle).take (2+1) →
        scoreAt [("trend", 1)]
            (⟨[("trend", 1)], 1/2, 10000, 0, 0, 0, 3, -3/10, 50⟩ : BTParams).window
            [⟨100,100⟩, ⟨100,101⟩, ⟨100,102⟩, ⟨100,999⟩] 2
          = scoreAt [("trend", 1)]
            (⟨[("trend", 1)], 1/2, 10000, 0, 0, 0, 3, -3/10, 50⟩ : BTParams).window
            [⟨100,100⟩, ⟨100,101⟩, ⟨100,102⟩, ⟨1,1⟩] 2)
    ∧ execPrice [⟨100,100⟩, ⟨100,101⟩, ⟨100,102⟩, ⟨100,999⟩] 2
        = (([⟨100,100⟩, ⟨100,101⟩, ⟨100,102⟩, ⟨100,999⟩] : List Candle).getD (2 + 1)
            dCandle).open_
    ∧ (([⟨100,100⟩, ⟨100,101⟩, ⟨100,102⟩, ⟨100,999⟩] : List Candle).take (2+2)
          = ([⟨100,100⟩, ⟨100,101⟩, ⟨100,102⟩, ⟨1,1⟩] : List Candle).take (2+2) →
        2 + 1 < ([⟨100,100⟩, ⟨100,101⟩, ⟨100,102⟩, ⟨1,1⟩] : List Candle).length →
        btStep (⟨[("trend", 1)], 1/2, 10000, 0, 0, 0, 3, -3/10, 50⟩ : BTParams)
            [⟨100,100⟩, ⟨100,101⟩, ⟨100,102⟩, ⟨100,999⟩] (btInit 10000) 2
          = btStep (⟨[("trend", 1)], 1/2, 10000, 0, 0, 0, 3, -3/10, 50⟩ : BTParams)
            [⟨100,100⟩, ⟨100,101⟩, ⟨100,102⟩, ⟨1,1⟩] (btInit 10000) 2)
    ∧ (2 + 1 < max 3 (⟨[("trend", 1)], 1/2, 10000, 0, 0, 0, 3, -3/10, 50⟩
          : BTParams).window →
        ∀ st', btStep (⟨[("trend", 1)], 1/2, 10000, 0, 0, 0, 3, -3/10, 50⟩ : BTParams)
            [⟨100,100⟩, ⟨100,101⟩, ⟨100,102⟩, ⟨100,999⟩] (btInit 10000) 2
          = Except.ok st' →
        st'.cash_krw = (btInit 10000).cash_krw
          ∧ st'.coin_qty = (btInit 10000).coin_qty
          ∧ st'.total_trades = (btInit 10000).total_trades) :=
  C1_no_lookahead ⟨[("trend", 1)], 1/2, 10000, 0, 0, 0, 3, -3/10, 50⟩
    [⟨100,100⟩, ⟨100,101⟩, ⟨100,102⟩, ⟨100,999⟩]
    [⟨100,100⟩, ⟨100,101⟩, ⟨100,102⟩, ⟨1,1⟩]
    (btInit 10000) 2 (by norm_num)

-- ----------------------------------------------------------------
-- The constant-price scenario (C6)
-- ----------------------------------------------------------------

lemma replicate_append_one {α : Type} (n : ℕ) (a : α) :
    List.replicate n a ++ [a] = List.replicate (n+1) a := by
  induction n with
  | zero => exact List.nil_append [a]
  | succ m ihra =>
    rw [List.replicate_succ, List.cons_append, ihra]
    exact (List.replicate_succ a (m+1)).symm

lemma mddStep_first (c : ℚ) : mddStep (none, 0) c = (some c, 0) := by
  unfold mddStep
  simp only []
  rw [show (if (0:ℚ) < c then
      (let dd := (c - c) / c
       if (0:ℚ) < dd then dd else (0:ℚ))
    else (0:ℚ)) = 0 by simp [sub_self, zero_div]]

lemma mddStep_const (c : ℚ) : mddStep (some c, 0) c = (some c, 0) := by
  unfold mddStep
  simp only []
  rw [show (if c < c then c else c) = c from ite_self c]
  rw [show (if (0:ℚ) < c then
      (let dd := (c - c) / c
       if (0:ℚ) < dd then dd else (0:ℚ))
    else (0:ℚ)) = 0 by simp [sub_self, zero_div]]

lemma foldl_mddStep_const (c : ℚ) :
    ∀ k, (List.replicate k c).foldl mddStep (some c, 0) = (some c, 0) := by
  intro k
  induction k with
  | zero => exact rfl
  | succ j ihf =>
    rw [List.replicate_succ, List.foldl_cons, mddStep_const]
    exact ihf

lemma max_drawdown_replicate (n : ℕ) (c : ℚ) :
    max_drawdown (List.replicate n c) = 0 := by
  unfold max_drawdown
  rcases n with _ | m
  · rfl
  · rw [List.replicate_succ, List.foldl_cons, mddStep_first, foldl_mddStep_const]

/-- On the 250 constant candles, the slice seen at a trading step is the
200-element constant close list. -/
lemma recentCloses_const {k : ℕ} (hk : k ≤ 248) (h200 : 200 ≤ k + 1) :
    recentCloses (List.replicate 250 (⟨100, 100⟩ : Candle)) 200 k
      = List.replicate 200 (100:ℚ) := by
  unfold recentCloses
  rw [List.drop_replicate, List.take_replicate, List.map_replicate,
    show min 200 (250 - (k + 1 - 200)) = 200 by omega]

set_option maxHeartbeats 1000000 in
/-- On the 250 constant candles (window 200), as long as the score stays
below the buy threshold the loop state never changes: full cash, no
position, flat equity curve, all-zero returns, no trades. -/
lemma const_loop (weights : List (String × ℚ))
    (threshold ic fr fb ag est : ℚ) (esc : ℕ)
    (hic : 0 < ic) (hth : 0 < threshold)
    (hscore : scoreConst weights < threshold) (hest : est < 0) :
    ∀ k, k ≤ 249 →
      btLoop (btParamsOf (List.replicate 250 (⟨100,100⟩ : Candle)) weights
          threshold ic fr fb ag 200 est esc)
        (List.replicate 250 (⟨100,100⟩ : Candle)) k (btInit ic)
      = Except.ok ⟨ic, 0, List.replicate k ic, List.replicate (k-1) 0, ic, 0, 0⟩ := by
  intro k
  induction k with
  | zero => exact fun _ => rfl
  | succ k ih =>
    intro hk
    rw [btLoop_succ, ih (by omega)]
    show btStep (btParamsOf (List.replicate 250 (⟨100,100⟩ : Candle)) weights
        threshold ic fr fb ag 200 est esc)
      (List.replicate 250 (⟨100,100⟩ : Candle))
      ⟨ic, 0, List.replicate k ic, List.replicate (k-1) 0, ic, 0, 0⟩ k
      = Except.ok ⟨ic, 0, List.replicate (k+1) ic, List.replicate k 0, ic, 0, 0⟩
    have hcand : (List.replicate 250 (⟨100,100⟩ : Candle)).getD (k+1) dCandle
        = ⟨100,100⟩ := @getD_replicate Candle 250 (k+1) (by omega) _ _
    have heq : ic + 0 * (100:ℚ) = ic := by ring
    have hES : ¬ (esc ≤ k ∧ (ic + 0 * (100:ℚ)) / ic - 1 ≤ est) := by
      rintro ⟨-, h2⟩
      rw [heq, div_self (ne_of_gt hic), sub_self] at h2
      linarith
    have hret : (if 0 < k ∧ 0 < ic
        then List.replicate (k-1) 0 ++ [(ic + 0 * (100:ℚ) - ic) / ic]
        else List.replicate (k-1) 0) = List.replicate k (0:ℚ) := by
      by_cases hk0 : 0 < k
      · rw [if_pos ⟨hk0, hic⟩, heq, sub_self, zero_div, replicate_append_one,
          show k - 1 + 1 = k by omega]
      · rw [if_neg (fun h => hk0 h.1), show k = 0 by omega]
    have hcurve : List.replicate k ic ++ [ic + 0 * (100:ℚ)]
        = List.replicate (k+1) ic := by
      rw [heq, replicate_append_one]
    unfold btStep execPrice
    simp only [btParamsOf, hcand]
    rw [if_neg hES]
    rw [List.length_replicate]
    simp only [show (3:ℕ) ⊔ 200 ⊓ 250 = 200 by omega,
      show (3:ℕ) ⊔ 200 = 200 by omega]
    by_cases hcase : k + 1 < 200
    · rw [if_pos hcase]
      rw [hcurve, hret, heq]
    · rw [if_neg hcase]
      have hscoreeq : scoreAt weights 200 (List.replicate 250 (⟨100,100⟩ : Candle)) k
          = scoreConst weights := by
        unfold scoreAt
        rw [recentCloses_const (by omega) (by omega),
          ensemble_const (by norm_num) (by norm_num)]
        rfl
      rw [hscoreeq, if_neg (not_le.mpr hscore)]
      by_cases hsell : scoreConst weights ≤ -threshold
      · rw [if_pos hsell, if_neg (lt_irrefl 0)]
        rw [hcurve, hret, heq]
      · rw [if_neg hsell]
        rw [hcurve, hret, heq]

set_option maxHeartbeats 1000000 in
/-- C6 (amended): on 250 constant candles (open = close = 100) the
sub-strategies do NOT all vote 0 — they vote the fixed constants recorded
in `constVote` (trend, momentum, swing, day and rsi vote -1, bollinger
votes +1, the rest 0) — so `ensemble_signal` returns the weighted sum
`scoreConst weights` of those constants rather than 0.  Whenever that
score stays below the (positive) buy threshold, the backtest on the
constant series still makes no trades and returns total_return = 0 and
max_drawdown = 0. -/
theorem C6_constant_scenario_amended
    (weights : List (String × ℚ)) (threshold ic fr fb ag est : ℚ) (esc : ℕ)
    (hic : 0 < ic) (hth : 0 < threshold)
    (hscore : scoreConst weights < threshold) (hest : est < 0) :
    ensemble_signal (List.replicate 200 (100:ℚ)) weights = scoreConst weights ∧
    (backtest (List.replicate 250 (⟨100,100⟩ : Candle)) weights threshold ic fr
        fb ag 200 est esc).num_trades = 0 ∧
    (backtest (List.replicate 250 (⟨100,100⟩ : Candle)) weights threshold ic fr
        fb ag 200 est esc).total_return = 0 ∧
    (backtest (List.replicate 250 (⟨100,100⟩ : Candle)) weights threshold ic fr
        fb ag 200 est esc).max_drawdown = 0 := by
  have hloop := const_loop weights threshold ic fr fb ag est esc hic hth hscore
    hest 249 (le_refl _)
  have hlast : (List.replicate 250 (⟨100,100⟩ : Candle)).getLastD dCandle
      = ⟨100,100⟩ := by
    have h250 : List.replicate 250 (⟨100,100⟩ : Candle)
        = List.replicate 249 (⟨100,100⟩ : Candle) ++ [⟨100,100⟩] :=
      (replicate_append_one 249 _).symm
    rw [h250, List.getLastD_concat]
  have hbt : backtest (List.replicate 250 (⟨100,100⟩ : Candle)) weights threshold
      ic fr fb ag 200 est esc
      = { final_equity := ic, total_return := 0, max_drawdown := 0,
          sharpe := sharpeOf (List.replicate 248 0), win_rate := 0,
          num_trades := 0 } := by
    unfold backtest
    simp only []
    rw [List.length_replicate, show (250:ℕ) - 1 = 249 from rfl, hloop]
    simp only [hlast]
    rw [show ic + 0 * (100:ℚ) = ic from by ring]
    rw [div_self (ne_of_gt hic), sub_self, max_drawdown_replicate,
      show (249:ℕ) - 1 = 248 from rfl, if_neg (lt_irrefl 0)]
  exact ⟨ensemble_const (by norm_num) (by norm_num) weights,
    by rw [hbt], by rw [hbt], by rw [hbt]⟩

/-- C6 witness: with all weight on `trend` the ensemble on the constant
series is the constant trend vote, and the backtest makes no trades under
the default-style parameters. -/
theorem C6_constant_scenario_witness :
    ensemble_signal (List.replicate 200 (100:ℚ)) [("trend", 1)]
      = scoreConst [("trend", 1)] ∧
    (backtest (List.replicate 250 (⟨100,100⟩ : Candle)) [("trend", 1)] (1/2)
        10000 (1/2000) (1/2000) (3/2000) 200 (-3/10) 50).num_trades = 0 ∧
    (backtest (List.replicate 250 (⟨100,100⟩ : Candle)) [("trend", 1)] (1/2)
        10000 (1/2000) (1/2000) (3/2000) 200 (-3/10) 50).total_return = 0 ∧
    (backtest (List.replicate 250 (⟨100,100⟩ : Candle)) [("trend", 1)] (1/2)
        10000 (1/2000) (1/2000) (3/2000) 200 (-3/10) 50).max_drawdown = 0 :=
  C6_constant_scenario_amended [("trend", 1)] (1/2) 10000 (1/2000) (1/2000)
    (3/2000) (-3/10) 50 (by norm_num) (by norm_num)
    (by with_unfolding_all decide) (by norm_num)

-- ----------------------------------------------------------------
-- Non-negativity of the simulator state (C10)
-- ----------------------------------------------------------------

lemma floor8_le (q : ℚ) : floor8 q ≤ q := by
  unfold floor8
  rw [div_le_iff (by norm_num : (0:ℚ) < 100000000)]
  exact Int.floor_le _

lemma floor8_nonneg (q : ℚ) (h : 0 ≤ q) : 0 ≤ floor8 q := by
  unfold floor8
  apply div_nonneg _ (by norm_num)
  exact_mod_cast Int.floor_nonneg.mpr (by positivity)

set_option maxHeartbeats 1600000 in
/-- One step of the loop preserves non-negative cash and position when
`0 ≤ fee_rate ≤ 1` and `0 ≤ fee_buffer`: a buy spends at most the
available cash because the volume is truncated against a unit cost
inflated by `fee_rate + fee_buffer` while only `fee_rate` is charged,
and a sell zeroes the position and adds `proceed * (1 - fee_rate) ≥ 0`. -/
lemma btStep_nonneg (P : BTParams) (candles : List Candle) (st st' : BTState)
    (i : ℕ) (hfr0 : 0 ≤ P.fee_rate) (hfr1 : P.fee_rate ≤ 1)
    (hfb : 0 ≤ P.fee_buffer) (hcash : 0 ≤ st.cash_krw) (hqty : 0 ≤ st.coin_qty)
    (hstep : btStep P candles st i = Except.ok st') :
    0 ≤ st'.cash_krw ∧ 0 ≤ st'.coin_qty := by
  unfold btStep at hstep
  simp only [] at hstep
  set tpu := round_price_to_tick (execPrice candles i * (1 + P.aggressiveness))
    "up" with htpu
  set v := if 0 < tpu * (1 + P.fee_rate + P.fee_buffer)
    then floor8 (st.cash_krw / (tpu * (1 + P.fee_rate + P.fee_buffer)))
    else 0 with hv
  set tpd := round_price_to_tick (execPrice candles i * (1 - P.aggressiveness))
    "down" with htpd
  clear_value tpu v tpd
  split_ifs at hstep with c1 c2 c3 c4 c5 c6 c7 c8 c9 c10 c11 c12 c13 c14 c15
  all_goals injection hstep with hst
  all_goals subst hst
  all_goals try exact ⟨hcash, hqty⟩
  all_goals try (
    obtain ⟨hv0, hvmin⟩ := c6
    refine ⟨?_, add_nonneg hqty (le_of_lt hv0)⟩
    show 0 ≤ st.cash_krw - (tpu * v + tpu * v * P.fee_rate)
    have heff : 0 < tpu * (1 + P.fee_rate + P.fee_buffer) := by
      by_contra hne
      rw [hv, if_neg hne] at hv0
      exact lt_irrefl 0 hv0
    have hvle : v * (tpu * (1 + P.fee_rate + P.fee_buffer)) ≤ st.cash_krw := by
      rw [hv, if_pos heff, ← le_div_iff heff]
      exact floor8_le _
    have htpu0 : 0 < tpu := by
      by_contra hne
      push_neg at hne
      have hX : (0:ℚ) < 1 + P.fee_rate + P.fee_buffer := by linarith
      nlinarith [mul_nonpos_of_nonpos_of_nonneg hne hX.le]
    have hfbterm : 0 ≤ tpu * v * P.fee_buffer :=
      mul_nonneg (mul_nonneg htpu0.le hv0.le) hfb
    nlinarith [hvle, hfbterm])
  all_goals (
    refine ⟨?_, le_refl 0⟩
    show 0 ≤ st.cash_krw + (tpd * st.coin_qty - tpd * st.coin_qty * P.fee_rate)
    have hpr0 : 0 ≤ tpd * st.coin_qty := by
      unfold min_order_krw at c12
      linarith
    nlinarith [mul_nonneg hpr0 (sub_nonneg.mpr hfr1)])

lemma btLoop_nonneg (P : BTParams) (candles : List Candle) (ic : ℚ)
    (hfr0 : 0 ≤ P.fee_rate) (hfr1 : P.fee_rate ≤ 1) (hfb : 0 ≤ P.fee_buffer)
    (hic : 0 ≤ ic) :
    ∀ n st, btLoop P candles n (btInit ic) = Except.ok st →
      0 ≤ st.cash_krw ∧ 0 ≤ st.coin_qty := by
  intro n
  induction n with
  | zero =>
    intro st h
    obtain rfl : btInit ic = st := Except.ok.inj h
    exact ⟨hic, le_refl 0⟩
  | succ k ihn =>
    intro st h
    rw [btLoop_succ] at h
    cases hmid : btLoop P candles k (btInit ic) with
    | error e =>
      rw [hmid] at h
      exact Except.noConfusion h
    | ok stmid =>
      rw [hmid] at h
      obtain ⟨hc, hq⟩ := ihn stmid hmid
      exact btStep_nonneg P candles stmid st k hfr0 hfr1 hfb hc hq h

/-- C10 (amended): the implicit non-negativity invariant of `_backtest`
holds only under the extra precondition `fee_rate ≤ 1` (see the
counterexample): with `0 ≤ fee_rate ≤ 1`, `0 ≤ fee_buffer` and
`0 ≤ initial_cash`, after any number of loop steps that reach state `st`,
`st.cash_krw ≥ 0` and `st.coin_qty ≥ 0`. -/
theorem C10_state_nonneg
    (candles : List Candle) (weights : List (String × ℚ))
    (threshold ic fr fb ag est : ℚ) (w esc : ℕ)
    (hfr0 : 0 ≤ fr) (hfr1 : fr ≤ 1) (hfb : 0 ≤ fb) (hic : 0 ≤ ic)
    (hpos : ∀ c ∈ candles, 0 < c.open_ ∧ 0 < c.close)
    (n : ℕ) (st : BTState)
    (hrun : btLoop (btParamsOf candles weights threshold ic fr fb ag w est esc)
        candles n (btInit ic) = Except.ok st) :
    0 ≤ st.cash_krw ∧ 0 ≤ st.coin_qty :=
  btLoop_nonneg _ candles ic hfr0 hfr1 hfb hic n st hrun

/-- C10 witness: one bookkeeping step on two flat candles from cash
10000 keeps the state non-negative. -/
theorem C10_state_nonneg_witness :
    0 ≤ ((⟨10000, 0, [10000], [], 10000, 0, 0⟩ : BTState)).cash_krw ∧
    0 ≤ ((⟨10000, 0, [10000], [], 10000, 0, 0⟩ : BTState)).coin_qty :=
  C10_state_nonneg [⟨100,100⟩, ⟨100,100⟩] [("trend", 1)] (1/2) 10000 (1/2000)
    (1/2000) 0 (-3/10) 3 50 (by norm_num) (by norm_num) (by norm_num)
    (by norm_num) (by with_unfolding_all decide) 1
    ⟨10000, 0, [10000], [], 10000, 0, 0⟩ (by with_unfolding_all rfl)

/-- C10 counterexample: under exactly the preconditions the claim states
(`fee_rate ≥ 0`, `fee_buffer ≥ 0`, `initial_cash ≥ 0`, all prices
positive) the invariant fails for `fee_rate = 2`: the sell fee exceeds
the proceeds, so the run buys at step 2 (cash 0, 100 coins) and the sell
at step 3 drives cash to -10000 < 0. -/
theorem C10_nonneg_counterexample :
    (0:ℚ) ≤ 2 ∧ (0:ℚ) ≤ 0 ∧ (0:ℚ) ≤ 30000 ∧
    (∀ c ∈ ([⟨100,100⟩, ⟨100,100⟩, ⟨100,200⟩, ⟨100,100⟩, ⟨100,100⟩]
        : List Candle), 0 < c.open_ ∧ 0 < c.close) ∧
    btLoop (btParamsOf [⟨100,100⟩, ⟨100,100⟩, ⟨100,200⟩, ⟨100,100⟩, ⟨100,100⟩]
        [("trend", 1)] (1/2) 30000 2 0 0 3 (-3/10) 100)
      [⟨100,100⟩, ⟨100,100⟩, ⟨100,200⟩, ⟨100,100⟩, ⟨100,100⟩] 4 (btInit 30000)
      = Except.ok ⟨-10000, 0, [30000, 30000, 30000, 10000], [0, 0, -2/3],
          10000, 0, 2⟩ ∧
    ((⟨-10000, 0, [30000, 30000, 30000, 10000], [0, 0, -2/3], 10000, 0, 2⟩
        : BTState)).cash_krw < 0 := by
  refine ⟨by norm_num, le_refl 0, by norm_num, by with_unfolding_all decide,
    by with_unfolding_all rfl, by norm_num⟩

-- ----------------------------------------------------------------
-- Grid generator weight invariant (C2)
-- ----------------------------------------------------------------

lemma pyRound_le (q : ℚ) : (pyRound q : ℚ) ≤ q + 1/2 := by
  unfold pyRound
  have h0 := Int.floor_le q
  have h1 := Int.sub_one_lt_floor q
  simp only []
  split_ifs with h2 h3 h4 <;> push_cast <;> linarith

lemma pyRound_ge (q : ℚ) : q - 1/2 ≤ (pyRound q : ℚ) := by
  unfold pyRound
  have h0 := Int.floor_le q
  have h1 := Int.sub_one_lt_floor q
  simp only []
  split_ifs with h2 h3 h4 <;> push_cast <;> linarith

lemma pyRound_nonneg (q : ℚ) (h : 0 ≤ q) : 0 ≤ pyRound q := by
  unfold pyRound
  have h0 : (0:ℤ) ≤ ⌊q⌋ := Int.floor_nonneg.mpr h
  simp only []
  split_ifs <;> omega

lemma pyRound_le_of_le (q : ℚ) (b : ℤ) (h : q ≤ b) : pyRound q ≤ b := by
  unfold pyRound
  have hfl : ⌊q⌋ ≤ b := by
    have hm := Int.floor_le_floor h
    rwa [Int.floor_intCast] at hm
  simp only []
  split_ifs with h2 h3 h4
  · exact hfl
  · by_contra hc
    push_neg at hc
    have hfb : ⌊q⌋ = b := le_antisymm hfl (by omega)
    rw [hfb] at h3
    linarith
  · exact hfl
  · by_contra hc
    push_neg at hc
    have hfb : ⌊q⌋ = b := le_antisymm hfl (by omega)
    rw [hfb] at h2
    linarith
lemma round10_nonneg (v : ℚ) (h0 : 0 ≤ v) : 0 ≤ round10 v := by
  unfold round10
  apply div_nonneg _ (by norm_num)
  have hz0 : (0 : ℤ) ≤ pyRound (v * 10^10) :=
    pyRound_nonneg _ (mul_nonneg h0 (by norm_num))
  exact_mod_cast hz0

lemma round10_le_one (v : ℚ) (h1 : v ≤ 1) : round10 v ≤ 1 := by
  unfold round10
  rw [div_le_one (by norm_num)]
  have hz : pyRound (v * 10^10) ≤ 10^10 := by
    apply pyRound_le_of_le
    push_cast
    nlinarith [mul_le_of_le_one_left (show (0:ℚ) ≤ 10^10 by norm_num) h1]
  exact_mod_cast hz

lemma round10_err (v : ℚ) : |round10 v - v| ≤ 1/20000000000 := by
  have hle := pyRound_le (v * 10^10)
  have hge := pyRound_ge (v * 10^10)
  unfold round10
  rw [abs_le]
  constructor <;> linarith

lemma roundsum_err : ∀ ws : List (String × ℚ),
    |((ws.map (fun kw => (kw.1, round10 kw.2))).map Prod.snd).sum
        - (ws.map Prod.snd).sum|
      ≤ ws.length * (1/20000000000) := by
  intro ws
  induction ws with
  | nil => simp
  | cons a t ihr =>
    simp only [List.map_cons, List.sum_cons, List.length_cons]
    have h1 := round10_err a.2
    have heq : round10 a.2 + ((t.map (fun kw => (kw.1, round10 kw.2))).map
          Prod.snd).sum - (a.2 + (t.map Prod.snd).sum)
        = (round10 a.2 - a.2) + (((t.map (fun kw => (kw.1, round10 kw.2))).map
          Prod.snd).sum - (t.map Prod.snd).sum) := by ring
    rw [heq]
    refine le_trans (abs_add _ _) ?_
    push_cast
    linarith [ihr]

lemma gc_mem : ∀ (n : ℕ) {r : ℕ} {c : List ℕ},
    c ∈ generate_combinations r (n+1) → c.sum = r ∧ c.length = n + 1 := by
  intro n
  induction n with
  | zero =>
    intro r c hc
    unfold generate_combinations at hc
    rw [List.mem_singleton] at hc
    subst hc
    simp
  | succ m ihg =>
    intro r c hc
    unfold generate_combinations at hc
    rcases List.mem_flatMap.mp hc with ⟨i, hir, hsub⟩
    rcases List.mem_map.mp hsub with ⟨sub, hsubmem, rfl⟩
    obtain ⟨hs, hl⟩ := ihg hsubmem
    have hi : i ≤ r := by
      have := List.mem_range.mp hir
      omega
    refine ⟨?_, by simp [hl]⟩
    simp only [List.sum_cons, hs]
    omega

lemma sum_map_div (u : ℚ) : ∀ l : List ℕ,
    (l.map (fun x : ℕ => (x : ℚ) / u)).sum = (l.sum : ℚ) / u := by
  intro l
  induction l with
  | nil => simp
  | cons x ts ihd =>
    rw [List.map_cons, List.sum_cons, List.sum_cons, ihd]
    push_cast
    rw [add_div]

lemma grid_facts {step : ℚ} {ws : List (String × ℚ)}
    (h : ws ∈ generate_weight_grid step) :
    ws.map Prod.fst = STRATEGY_KEYS ∧
    (∀ kw ∈ ws, 0 ≤ kw.2 ∧ kw.2 ≤ 1) ∧ (ws.map Prod.snd).sum = 1 := by
  unfold generate_weight_grid at h
  simp only [] at h
  set sp := if step ≤ 0 ∨ 1 < step then (1:ℚ)/10 else step with hsp
  set u := (pyRound (1 / sp)).toNat with hu
  rcases List.mem_map.mp h with ⟨combo, hcombo, rfl⟩
  obtain ⟨hsum, hlen⟩ := gc_mem 8 hcombo
  have hsp_pos : 0 < sp ∧ sp ≤ 1 := by
    rw [hsp]
    split_ifs with hcase
    · norm_num
    · push_neg at hcase
      exact hcase
  have hinv1 : 1 ≤ 1 / sp := by
    rw [le_div_iff hsp_pos.1]
    linarith [hsp_pos.2]
  have hpr1 : (1:ℤ) ≤ pyRound (1 / sp) := by
    have hq := pyRound_ge (1 / sp)
    have hq0 : (0:ℚ) < (pyRound (1/sp) : ℚ) := by linarith
    have hz : (0:ℤ) < pyRound (1/sp) := by exact_mod_cast hq0
    omega
  have hu1 : 1 ≤ u := by rw [hu]; omega
  have huQ : (0:ℚ) < (u:ℚ) := by
    have : (1:ℚ) ≤ (u:ℚ) := by exact_mod_cast hu1
    linarith
  have hklen : STRATEGY_KEYS.length = 9 := rfl
  have hmaplen : (combo.map (fun x : ℕ => (x : ℚ) / (u : ℚ))).length = 9 := by
    rw [List.length_map, hlen]
  refine ⟨?_, ?_, ?_⟩
  · exact List.map_fst_zip _ _ (by rw [hmaplen, hklen])
  · intro kw hkw
    obtain ⟨k, w⟩ := kw
    have hw := (List.mem_zip hkw).2
    rcases List.mem_map.mp hw with ⟨x, hx, rfl⟩
    constructor
    · exact div_nonneg (by positivity) huQ.le
    · rw [div_le_one huQ]
      have hxle : x ≤ u := by
        have := List.single_le_sum (fun y _ => Nat.zero_le y) x hx
        omega
      exact_mod_cast hxle
  · rw [List.map_snd_zip _ _ (by rw [hmaplen, hklen]), sum_map_div, hsum]
    exact div_self (ne_of_gt huQ)

lemma updateVal_cons (a : String × ℚ) (t : List (String × ℚ)) (k : String)
    (v : ℚ) :
    updateVal (a :: t) k v
      = (if a.1 = k then (a.1, v) else a) :: updateVal t k v := rfl

lemma updateVal_keys (ws : List (String × ℚ)) (k : String) (v : ℚ) :
    (updateVal ws k v).map Prod.fst = ws.map Prod.fst := by
  induction ws with
  | nil => rfl
  | cons a t ihk =>
    rw [updateVal_cons, List.map_cons, List.map_cons, ihk]
    congr 1
    split_ifs <;> rfl

lemma updateVal_of_not_mem (ws : List (String × ℚ)) (k : String) (v : ℚ)
    (h : k ∉ ws.map Prod.fst) : updateVal ws k v = ws := by
  induction ws with
  | nil => rfl
  | cons a t ihn =>
    rw [List.map_cons, List.mem_cons] at h
    push_neg at h
    rw [updateVal_cons, if_neg (fun he => h.1 he.symm), ihn h.2]

lemma updateVal_mem {ws : List (String × ℚ)} {k : String} {v : ℚ}
    {kw : String × ℚ} (h : kw ∈ updateVal ws k v) : kw.2 = v ∨ kw ∈ ws := by
  unfold updateVal at h
  rcases List.mem_map.mp h with ⟨orig, horig, heq⟩
  by_cases hok : orig.1 = k
  · rw [if_pos hok] at heq
    left
    rw [← heq]
  · rw [if_neg hok] at heq
    right
    exact heq ▸ horig

lemma lookup_isSome_of_mem {ws : List (String × ℚ)} {k : String}
    (h : k ∈ ws.map Prod.fst) : ∃ w, ws.lookup k = some w := by
  induction ws with
  | nil => exact absurd h (List.not_mem_nil _)
  | cons a t ihq =>
    obtain ⟨a1, a2⟩ := a
    rw [List.map_cons, List.mem_cons] at h
    by_cases hka : k = a1
    · exact ⟨a2, by simp [List.lookup_cons, hka]⟩
    · rcases h with h1 | h2
      · exact absurd h1 hka
      · obtain ⟨w, hw⟩ := ihq h2
        exact ⟨w, by simp [List.lookup_cons, beq_false_of_ne hka, hw]⟩

lemma lookup_updateVal_ne (ws : List (String × ℚ)) (k k' : String) (v : ℚ)
    (h : k' ≠ k) : (updateVal ws k v).lookup k' = ws.lookup k' := by
  induction ws with
  | nil => rfl
  | cons a t ihl =>
    obtain ⟨a1, a2⟩ := a
    rw [updateVal_cons]
    simp only []
    by_cases hak : a1 = k
    · rw [if_pos hak]
      have hne : k' ≠ a1 := fun he => h (he.trans hak)
      simp [List.lookup_cons, beq_false_of_ne hne, ihl]
    · rw [if_neg hak]
      by_cases hka : k' = a1
      · simp [List.lookup_cons, hka]
      · simp [List.lookup_cons, beq_false_of_ne hka, ihl]

lemma sum_updateVal : ∀ (ws : List (String × ℚ)) (k : String) (v : ℚ),
    (ws.map Prod.fst).Nodup → k ∈ ws.map Prod.fst →
    ((updateVal ws k v).map Prod.snd).sum
      = (ws.map Prod.snd).sum - ((ws.lookup k).getD 0) + v := by
  intro ws
  induction ws with
  | nil =>
    intro k v _ hk
    exact absurd hk (List.not_mem_nil _)
  | cons a t ihs =>
    intro k v hnd hk
    obtain ⟨a1, a2⟩ := a
    rw [List.map_cons, List.nodup_cons] at hnd
    rw [List.map_cons, List.mem_cons] at hk
    rw [updateVal_cons]
    simp only []
    by_cases hak : a1 = k
    · rw [if_pos hak]
      have hnk : k ∉ t.map Prod.fst := hak ▸ hnd.1
      rw [updateVal_of_not_mem t k v hnk]
      have hlk : ((a1, a2) :: t).lookup k = some a2 := by
        simp [List.lookup_cons, hak]
      rw [hlk]
      simp only [List.map_cons, List.sum_cons, Option.getD_some]
      ring
    · rw [if_neg hak]
      have hkt : k ∈ t.map Prod.fst := by
        rcases hk with h1 | h2
        · exact absurd h1.symm hak
        · exact h2
      have hlk : ((a1, a2) :: t).lookup k = t.lookup k := by
        have hne : k ≠ a1 := fun he => hak he.symm
        simp [List.lookup_cons, beq_false_of_ne hne]
      rw [hlk]
      simp only [List.map_cons, List.sum_cons]
      rw [ihs k v hnd.2 hkt]
      ring

lemma neighbor_facts {base : List (String × ℚ)} (st : ℚ)
    (hkeys : (base.map Prod.fst).Nodup)
    (hb : ∀ kw ∈ base, 0 ≤ kw.2 ∧ kw.2 ≤ 1)
    (hs : (base.map Prod.snd).sum = 1)
    (hlen : base.length ≤ 1000) :
    ∀ nb ∈ generate_neighbor_weights base st,
      (∀ kw ∈ nb, 0 ≤ kw.2 ∧ kw.2 ≤ 1) ∧
      |(nb.map Prod.snd).sum - 1| < 1/1000000 := by
  intro nb hnb
  unfold generate_neighbor_weights at hnb
  simp only [] at hnb
  rcases List.mem_flatMap.mp hnb with ⟨ki, hki, hnb⟩
  try simp only [] at hnb
  rcases List.mem_flatMap.mp hnb with ⟨dl, hdl, hnb⟩
  try simp only [] at hnb
  have hper := List.mergeSort_perm base (fun a b => decide (b.2 ≤ a.2))
  have hkeysub : ∀ x ∈ (base.mergeSort (fun a b => decide (b.2 ≤ a.2))).take 3,
      x ∈ base := fun x hx => hper.mem_iff.mp (List.take_subset _ _ hx)
  have hkimem : ki ∈ base.map Prod.fst := by
    rcases List.mem_map.mp hki with ⟨e, he, rfl⟩
    exact List.mem_map_of_mem _ (hkeysub e he)
  by_cases hg1 : (base.lookup ki).getD 0 + dl < 0
      ∨ 1 < (base.lookup ki).getD 0 + dl
  · rw [if_pos hg1] at hnb
    exact absurd hnb (List.not_mem_nil _)
  rw [if_neg hg1] at hnb
  push_neg at hg1
  rcases List.mem_flatMap.mp hnb with ⟨kj, hkj, hnb⟩
  try simp only [] at hnb
  have hkjmem : kj ∈ base.map Prod.fst := by
    rcases List.mem_map.mp hkj with ⟨e, he, rfl⟩
    exact List.mem_map_of_mem _ (hkeysub e he)
  by_cases hij : ki = kj
  · rw [if_pos hij] at hnb
    exact absurd hnb (List.not_mem_nil _)
  rw [if_neg hij] at hnb
  by_cases hg2 : (base.lookup kj).getD 0 - dl < 0
      ∨ 1 < (base.lookup kj).getD 0 - dl
  · rw [if_pos hg2] at hnb
    exact absurd hnb (List.not_mem_nil _)
  rw [if_neg hg2] at hnb
  push_neg at hg2
  set vi := (base.lookup ki).getD 0 + dl with hvi
  set vj := (base.lookup kj).getD 0 - dl with hvj
  have hkjU : kj ∈ (updateVal base ki vi).map Prod.fst := by
    rw [updateVal_keys]
    exact hkjmem
  have hndU : ((updateVal base ki vi).map Prod.fst).Nodup := by
    rw [updateVal_keys]
    exact hkeys
  have hsum1 : ((updateVal base ki vi).map Prod.snd).sum
      = 1 + dl - (base.lookup ki).getD 0 + (base.lookup ki).getD 0 - dl + dl := by
    rw [sum_updateVal base ki vi hkeys hkimem, hs, hvi]
    ring
  have hlkj : (updateVal base ki vi).lookup kj = base.lookup kj :=
    lookup_updateVal_ne base ki kj vi (fun he => hij he.symm)
  have htot : ((updateVal (updateVal base ki vi) kj vj).map Prod.snd).sum
      = 1 := by
    rw [sum_updateVal _ kj vj hndU hkjU, hsum1, hlkj, hvj]
    ring
  have hcnd : |((updateVal (updateVal base ki vi) kj vj).map Prod.snd).sum - 1|
      < 1/1000000 := by
    rw [htot]
    norm_num
  rw [if_pos hcnd] at hnb
  rw [List.mem_singleton] at hnb
  subst hnb
  constructor
  · intro kw hkw
    rcases List.mem_map.mp hkw with ⟨orig, horig, rfl⟩
    simp only []
    have hval : 0 ≤ orig.2 ∧ orig.2 ≤ 1 := by
      rcases updateVal_mem horig with h1 | h1
      · rw [h1]
        exact hg2
      · rcases updateVal_mem h1 with h2 | h2
        · rw [h2]
          exact hg1
        · exact hb orig h2
    exact ⟨round10_nonneg _ hval.1, round10_le_one _ hval.2⟩
  · have herr := roundsum_err (updateVal (updateVal base ki vi) kj vj)
    rw [htot] at herr
    have hlen2 : (updateVal (updateVal base ki vi) kj vj).length
        = base.length := by
      unfold updateVal
      rw [List.length_map, List.length_map]
    rw [hlen2] at herr
    refine lt_of_le_of_lt herr ?_
    have hQ : ((base.length : ℕ) : ℚ) ≤ 1000 := by exact_mod_cast hlen
    linarith

/-- C2: the grid-generator weight invariant.  Every candidate emitted by
`_generate_weight_grid` and every neighbor `_generate_neighbor_weights`
produces from such a candidate has every individual weight in [0,1] and
total weight within 1e-6 of 1. -/
theorem C2_grid_weight_invariant (step fstep : ℚ) :
    (∀ ws ∈ generate_weight_grid step,
      (∀ kw ∈ ws, 0 ≤ kw.2 ∧ kw.2 ≤ 1) ∧
      |(ws.map Prod.snd).sum - 1| < 1/1000000) ∧
    (∀ base ∈ generate_weight_grid step,
      ∀ nb ∈ generate_neighbor_weights base fstep,
        (∀ kw ∈ nb, 0 ≤ kw.2 ∧ kw.2 ≤ 1) ∧
        |(nb.map Prod.snd).sum - 1| < 1/1000000) := by
  constructor
  · intro ws hws
    obtain ⟨hk, hbnd, hsum⟩ := grid_facts hws
    refine ⟨hbnd, ?_⟩
    rw [hsum]
    norm_num
  · intro base hbase nb hnb
    obtain ⟨hk, hbnd, hsum⟩ := grid_facts hbase
    have hnodup : (base.map Prod.fst).Nodup := by
      rw [hk]
      decide
    have hlen : base.length ≤ 1000 := by
      have hh : (base.map Prod.fst).length = STRATEGY_KEYS.length := by rw [hk]
      rw [List.length_map] at hh
      rw [hh]
      decide
    exact neighbor_facts fstep hnodup hbnd hsum hlen nb hnb

-- ----------------------------------------------------------------
-- Ranking order (C3) and optimizer no-ops (C9)
-- ----------------------------------------------------------------

lemma rank_lt_irrefl (a : ℚ × ℚ) : ¬ rank_lt a a := by
  unfold rank_lt
  rintro (h | ⟨h1, h2⟩)
  · exact lt_irrefl _ h
  · exact lt_irrefl _ h2

lemma rank_lt_trans {a b c : ℚ × ℚ} (hab : rank_lt a b) (hbc : rank_lt b c) :
    rank_lt a c := by
  unfold rank_lt at *
  rcases hab with h | ⟨h1, h2⟩ <;> rcases hbc with g | ⟨g1, g2⟩
  · left; linarith
  · left; linarith [g1 ▸ h]
  · left; linarith [h1 ▸ g]
  · right; exact ⟨h1.trans g1, h2.trans g2⟩

lemma rank_lt_total (a b : ℚ × ℚ) : rank_lt a b ∨ a = b ∨ rank_lt b a := by
  unfold rank_lt
  rcases lt_trichotomy a.1 b.1 with h | h | h
  · exact Or.inl (Or.inl h)
  · rcases lt_trichotomy a.2 b.2 with g | g | g
    · exact Or.inl (Or.inr ⟨h, g⟩)
    · exact Or.inr (Or.inl (Prod.ext h g))
    · exact Or.inr (Or.inr (Or.inr ⟨h.symm, g⟩))
  · exact Or.inr (Or.inr (Or.inl h))

lemma rank_lt_asymm {a b : ℚ × ℚ} (h : rank_lt a b) : ¬ rank_lt b a :=
  fun g => rank_lt_irrefl a (rank_lt_trans h g)

lemma rank_lt_ne {a b : ℚ × ℚ} (h : rank_lt a b) : a ≠ b :=
  fun he => rank_lt_irrefl a (he ▸ h)

lemma pyMax_spec {α : Type} (key : α → ℚ × ℚ) :
    ∀ (l : List α) (x : α),
      (l.foldl (fun best y =>
          if rank_lt (key best) (key y) then y else best) x) ∈ x :: l ∧
      ∀ y ∈ x :: l, ¬ rank_lt
        (key (l.foldl (fun best y =>
          if rank_lt (key best) (key y) then y else best) x)) (key y) := by
  intro l
  induction l with
  | nil =>
    intro x
    refine ⟨List.mem_singleton_self x, ?_⟩
    intro y hy
    rw [List.mem_singleton] at hy
    subst hy
    exact rank_lt_irrefl _
  | cons y t ihp =>
    intro x
    rw [List.foldl_cons]
    obtain ⟨hmem, hmax⟩ := ihp (if rank_lt (key x) (key y) then y else x)
    constructor
    · rcases List.mem_cons.mp hmem with h | h
      · rw [h]
        split_ifs
        · exact List.mem_cons_of_mem _ (List.mem_cons_self _ _)
        · exact List.mem_cons_self _ _
      · exact List.mem_cons_of_mem _ (List.mem_cons_of_mem _ h)
    · intro z hz
      by_cases hxy : rank_lt (key x) (key y)
      · rw [if_pos hxy] at hmem hmax ⊢
        rcases List.mem_cons.mp hz with hzx | hz2
        · rw [hzx]
          have hfy := hmax y (List.mem_cons_self _ _)
          intro hcon
          exact hfy (rank_lt_trans hcon hxy)
        · exact hmax z hz2
      · rw [if_neg hxy] at hmem hmax ⊢
        rcases List.mem_cons.mp hz with hzx | hz2
        · rw [hzx]
          exact hmax x (List.mem_cons_self _ _)
        rcases List.mem_cons.mp hz2 with hzy | hzt
        · rw [hzy]
          have hfx := hmax x (List.mem_cons_self _ _)
          intro hcon
          rcases rank_lt_total (key x) (key y) with g | g | g
          · exact hxy g
          · rw [← g] at hcon
            exact hfx hcon
          · exact hfx (rank_lt_trans hcon g)
        · exact hmax z (List.mem_cons_of_mem _ hzt)

lemma pyMax_mem_max {α : Type} (key : α → ℚ × ℚ) {l : List α} {m : α}
    (h : pyMax key l = some m) :
    m ∈ l ∧ ∀ y ∈ l, ¬ rank_lt (key m) (key y) := by
  cases l with
  | nil => exact Option.noConfusion h
  | cons x t =>
    obtain rfl : _ = m := Option.some.inj h
    exact pyMax_spec key t x

lemma pyMax_none_iff {α : Type} (key : α → ℚ × ℚ) {l : List α} :
    pyMax key l = none ↔ l = [] := by
  cases l with
  | nil => simp [pyMax]
  | cons x t => simp [pyMax]

lemma pyMax_unique {α : Type} (key : α → ℚ × ℚ) {l : List α}
    (hpw : l.Pairwise (fun a b => key a ≠ key b)) {m m' : α}
    (hm : m ∈ l ∧ ∀ y ∈ l, ¬ rank_lt (key m) (key y))
    (hm' : m' ∈ l ∧ ∀ y ∈ l, ¬ rank_lt (key m') (key y)) : m = m' := by
  by_contra hne
  have hsymm : Symmetric (fun a b : α => key a ≠ key b) :=
    fun a b hab => hab ∘ Eq.symm
  have hkne : key m ≠ key m' :=
    List.Pairwise.forall hsymm hpw hm.1 hm'.1 hne
  rcases rank_lt_total (key m) (key m') with h | h | h
  · exact hm.2 m' hm'.1 h
  · exact hkne h
  · exact hm'.2 m hm.1 h

lemma pyMax_perm {α : Type} (key : α → ℚ × ℚ) {l l' : List α}
    (hp : List.Perm l l')
    (hpw : l.Pairwise (fun a b => key a ≠ key b)) :
    pyMax key l = pyMax key l' := by
  cases hl : pyMax key l with
  | none =>
    rw [pyMax_none_iff] at hl
    subst hl
    rw [hp.symm.eq_nil]
    rfl
  | some m =>
    obtain ⟨hmem, hmax⟩ := pyMax_mem_max key hl
    cases hl' : pyMax key l' with
    | none =>
      rw [pyMax_none_iff] at hl'
      subst hl'
      rw [hp.eq_nil] at hl
      exact Option.noConfusion hl
    | some m' =>
      obtain ⟨hmem', hmax'⟩ := pyMax_mem_max key hl'
      have hm2 : m' ∈ l := hp.mem_iff.mpr hmem'
      have hmax2 : ∀ y ∈ l, ¬ rank_lt (key m') (key y) :=
        fun y hy => hmax' y (hp.mem_iff.mp hy)
      rw [pyMax_unique key hpw ⟨hmem, hmax⟩ ⟨hm2, hmax2⟩]

lemma pyMax_triple {α : Type} (key : α → ℚ × ℚ) (a b c : α)
    (hba : rank_lt (key b) (key a)) (hcb : rank_lt (key c) (key b)) :
    pyMax key [a, b, c] = some a := by
  simp only [pyMax, List.foldl_cons, List.foldl_nil]
  rw [if_neg (rank_lt_asymm hba),
    if_neg (rank_lt_asymm (rank_lt_trans hcb hba))]


/-- C3 (amended): the comparator on rank keys is a strict lexicographic
total order (irreflexive, transitive, trichotomous), and the selection by
Python `max` over `(total_return, sharpe)` is permutation-invariant
PROVIDED the rank keys are pairwise distinct (the counterexample shows
ties break order independence); for three results A > B > C under the
comparator, any ordering of them selects A. -/
theorem C3_ranking_amended :
    (∀ k : ℚ × ℚ, ¬ rank_lt k k) ∧
    (∀ k1 k2 k3 : ℚ × ℚ, rank_lt k1 k2 → rank_lt k2 k3 → rank_lt k1 k3) ∧
    (∀ k1 k2 : ℚ × ℚ, rank_lt k1 k2 ∨ k1 = k2 ∨ rank_lt k2 k1) ∧
    (∀ l l' : List (Metrics × OptParams), List.Perm l l' →
      l.Pairwise (fun r s => rank_key r ≠ rank_key s) →
      pyMax rank_key l = pyMax rank_key l') ∧
    (∀ a b c : Metrics × OptParams,
      rank_lt (rank_key b) (rank_key a) → rank_lt (rank_key c) (rank_key b) →
      ∀ l' : List (Metrics × OptParams), List.Perm l' [a, b, c] →
        pyMax rank_key l' = some a) := by
  refine ⟨rank_lt_irrefl, fun k1 k2 k3 => rank_lt_trans,
    rank_lt_total, fun l l' hp hpw => pyMax_perm rank_key hp hpw,
    fun a b c hba hcb l' hp => ?_⟩
  have hpw : List.Pairwise (fun r s => rank_key r ≠ rank_key s) [a, b, c] := by
    refine List.pairwise_cons.mpr ⟨?_, List.pairwise_cons.mpr ⟨?_, ?_⟩⟩
    · intro z hz
      rcases List.mem_cons.mp hz with hz1 | hz2
      · rw [hz1]
        exact (rank_lt_ne hba).symm
      · rw [List.mem_singleton] at hz2
        rw [hz2]
        exact (rank_lt_ne (rank_lt_trans hcb hba)).symm
    · intro z hz
      rw [List.mem_singleton] at hz
      rw [hz]
      exact (rank_lt_ne hcb).symm
    · exact List.pairwise_singleton _ _
  rw [pyMax_perm rank_key hp
    ((hp.pairwise_iff (fun h => h ∘ Eq.symm)).mpr hpw)]
  exact pyMax_triple rank_key a b c hba hcb

/-- C3 counterexample: two results with identical `(total_return,
sharpe)` keys but different parameter sets.  Python `max` keeps the first
maximal element, so the two orders of the same two-element collection
select different results, refuting order-independence on arbitrary
finite sets. -/
theorem C3_ranking_counterexample :
    List.Perm
      [((⟨0, 0, 0, 0, 0, 0⟩ : Metrics), (⟨[], 1⟩ : OptParams)),
        (⟨0, 0, 0, 0, 0, 0⟩, ⟨[], 2⟩)]
      [((⟨0, 0, 0, 0, 0, 0⟩ : Metrics), (⟨[], 2⟩ : OptParams)),
        (⟨0, 0, 0, 0, 0, 0⟩, ⟨[], 1⟩)] ∧
    pyMax rank_key
      [((⟨0, 0, 0, 0, 0, 0⟩ : Metrics), (⟨[], 1⟩ : OptParams)),
        (⟨0, 0, 0, 0, 0, 0⟩, ⟨[], 2⟩)]
      = some (⟨0, 0, 0, 0, 0, 0⟩, ⟨[], 1⟩) ∧
    pyMax rank_key
      [((⟨0, 0, 0, 0, 0, 0⟩ : Metrics), (⟨[], 2⟩ : OptParams)),
        (⟨0, 0, 0, 0, 0, 0⟩, ⟨[], 1⟩)]
      = some (⟨0, 0, 0, 0, 0, 0⟩, ⟨[], 2⟩) ∧
    ((⟨0, 0, 0, 0, 0, 0⟩ : Metrics), (⟨[], 1⟩ : OptParams))
      ≠ (⟨0, 0, 0, 0, 0, 0⟩, ⟨[], 2⟩) :=
  ⟨List.Perm.swap _ _ _, by with_unfolding_all decide,
    by with_unfolding_all decide, by with_unfolding_all decide⟩

/-- C9: the recoverable no-ops of the optimization cycle.  With fewer
than 200 candles `run` returns immediately (no backtest is evaluated and
nothing is persisted: the result is `none` before the coarse search is
even consulted); and if the coarse search produced no result, `run`
likewise returns `none` without persisting. -/
theorem C9_recoverable_noops (candles : List Candle) (thresholds : List ℚ)
    (ic fr fb ag : ℚ) (window : ℕ) (cs fs tp est : ℚ) (esc : ℕ) :
    (candles.length < 200 →
      runOpt candles thresholds ic fr fb ag window cs fs tp est esc = none) ∧
    (run_coarse_search candles thresholds ic fr fb ag window cs est esc = [] →
      runOpt candles thresholds ic fr fb ag window cs fs tp est esc = none) := by
  constructor
  · intro h
    unfold runOpt
    rw [if_pos h]
  · intro h
    unfold runOpt
    by_cases hlen : candles.length < 200
    · rw [if_pos hlen]
    · rw [if_neg hlen]
      simp only []
      rw [if_pos h]

/-- C9 witness: 199 flat candles trigger the insufficient-history
no-op; 200 candles with an empty threshold list make the coarse search
empty and trigger the second no-op. -/
theorem C9_recoverable_noops_witness :
    runOpt (List.replicate 199 (⟨100,100⟩ : Candle)) [1/5] 1000000 (1/2000)
      (1/2000) (3/2000) 200 1 (1/20) (1/10) (-3/10) 50 = none ∧
    runOpt (List.replicate 200 (⟨100,100⟩ : Candle)) [] 1000000 (1/2000)
      (1/2000) (3/2000) 200 1 (1/20) (1/10) (-3/10) 50 = none :=
  ⟨(C9_recoverable_noops (List.replicate 199 ⟨100,100⟩) [1/5] 1000000 (1/2000)
      (1/2000) (3/2000) 200 1 (1/20) (1/10) (-3/10) 50).1
    (by rw [List.length_replicate]; norm_num),
   (C9_recoverable_noops (List.replicate 200 ⟨100,100⟩) [] 1000000 (1/2000)
      (1/2000) (3/2000) 200 1 (1/20) (1/10) (-3/10) 50).2
    (by with_unfolding_all rfl)⟩
